import Mathlib

/-!
# Verification of the vue-i18n-audit extraction and validation pipeline

A shallow embedding of the core of the `vue-i18n-audit` tool
(`src/extractor.ts`, `src/locales.ts`, `src/validator.ts`, the audit
orchestrator, and `src/hardcoded.ts`), together with theorems checking the
natural-language specification against it.

Strings are modelled as Lean `String` / `List Char`; the JavaScript regular
expressions used by the tool are modelled by hand-written deterministic
matchers (each regex in the source is simple enough that greedy matching
never needs backtracking, so a single-pass matcher is faithful), and the
`RegExp.exec` loop with the `g` flag is modelled by a scanner that tries
each start position from the left and resumes after the end of a match.
JavaScript `Map` is modelled by an insertion-ordered association list,
numbers used in the coverage computation by `ℚ` (the formula is exact at
every input exercised here, so the float64/ℚ difference does not arise),
and `path.relative` (an I/O-free external collaborator from the node
standard library) by an abstract function parameter `rel`.
-/

namespace I18nAudit

/-! ## Character classes of the JavaScript regexes -/

/-- The JS regex class `\w` (`[A-Za-z0-9_]`). -/
def isWordChar (c : Char) : Bool := c.isAlphanum || c == '_'

/-- The JS regex class `\s` (whitespace, the code points relevant here). -/
def isJsWs (c : Char) : Bool :=
  c == ' ' || c == '\t' || c == '\n' || c == '\r' || c == '\x0b' || c == '\x0c' ||
  c == '\u00A0' || c == '\uFEFF'

/-- The quote class `['"` ++ "`" ++ `]` used by the extraction regexes. -/
def isQuoteChar (c : Char) : Bool := c == '\x27' || c == '"' || c == '`'

/-- The two-character sequence that marks template-literal interpolation. -/
def dollarBrace : List Char := ['$', '\x7b']

/-- A single-quote character as a string (used in issue messages). -/
def sq : String := String.mk ['\x27']

/-! ## List-of-characters utilities -/

/-- `startsWithSeq needle hay` : `hay` begins with `needle`. -/
def startsWithSeq : List Char → List Char → Bool
  | [], _ => true
  | _ :: _, [] => false
  | n :: ns, c :: cs => n == c && startsWithSeq ns cs

/-- Strip a literal sequence from the front, returning the rest on success. -/
def stripSeq : List Char → List Char → Option (List Char)
  | [], cs => some cs
  | _ :: _, [] => none
  | n :: ns, c :: cs => if n == c then stripSeq ns cs else none

/-- JS `String.prototype.includes` on character lists. -/
def containsSeq (needle : List Char) : List Char → Bool
  | [] => startsWithSeq needle []
  | c :: cs => startsWithSeq needle (c :: cs) || containsSeq needle cs

/-- JS `String.prototype.split(sep)` for a one-character separator:
`n` separators yield `n + 1` pieces, empty pieces included. -/
def splitOnChar (sep : Char) : List Char → List (List Char)
  | [] => [[]]
  | c :: cs =>
    if c == sep then [] :: splitOnChar sep cs
    else
      match splitOnChar sep cs with
      | [] => [[c]]
      | l :: ls => (c :: l) :: ls

/-- `String.prototype.split` at newline, as used on section texts. -/
def splitLines (cs : List Char) : List (List Char) := splitOnChar '\n' cs

/-- JS `String.prototype.trim` on character lists. -/
def jsTrim (cs : List Char) : List Char :=
  ((cs.dropWhile isJsWs).reverse.dropWhile isJsWs).reverse

/-- JS `String.prototype.trim` on strings. -/
def jsTrimStr (s : String) : String := String.mk (jsTrim s.data)

/-! ## Regex matchers for `src/extractor.ts`

Each matcher tries to match its pattern at the start of the given character
list and returns the captured key group together with the unconsumed rest.
-/

/-- Tail common to the quoted-key patterns: matches
`\s*\(\s*(['"` ++ "`" ++ `])([^'"` ++ "`" ++ `]+)\1` and returns the
group-2 text, the quote character and the rest. -/
def matchCallQuoted (cs : List Char) : Option (String × Char × List Char) :=
  match cs.dropWhile isJsWs with
  | '(' :: cs2 =>
    match cs2.dropWhile isJsWs with
    | q :: cs4 =>
      if isQuoteChar q then
        match cs4.dropWhile (fun c => !isQuoteChar c) with
        | q2 :: rest =>
          if (cs4.takeWhile (fun c => !isQuoteChar c)).isEmpty || q2 != q then none
          else some (String.mk (cs4.takeWhile (fun c => !isQuoteChar c)), q, rest)
        | [] => none
      else none
    | [] => none
  | _ => none

/-- Tail of the template-literal patterns: matches
``\s*\(\s*`([^`]+)` `` and returns the group text and the rest. -/
def matchCallTick (cs : List Char) : Option (String × List Char) :=
  match cs.dropWhile isJsWs with
  | '(' :: cs2 =>
    match cs2.dropWhile isJsWs with
    | '`' :: cs4 =>
      match cs4.dropWhile (fun c => c != '`') with
      | _ :: rest =>
        if (cs4.takeWhile (fun c => c != '`')).isEmpty then none
        else some (String.mk (cs4.takeWhile (fun c => c != '`')), rest)
      | [] => none
    | _ => none
  | _ => none

/-- The `\$?t` piece: an optional dollar sign followed by `t`. -/
def matchOptDollarT : List Char → Option (List Char)
  | '$' :: 't' :: cs => some cs
  | 't' :: cs => some cs
  | _ => none

/-- The template interpolation pattern
`/\{\{\s*\$?t\s*\(\s*(['"` ++ "`" ++ `])([^'"` ++ "`" ++ `]+)\1/`. -/
def matchInterpAt : List Char → Option (String × List Char)
  | '\x7b' :: '\x7b' :: cs =>
    match matchOptDollarT (cs.dropWhile isJsWs) with
    | some cs2 => (matchCallQuoted cs2).map (fun r => (r.1, r.2.2))
    | none => none
  | _ => none

/-- Consumes the `(?:-\w+)*` repetition of the bound-attribute pattern
(greedy; word characters and dashes are disjoint from `=`, so maximal
munch is exact). -/
def chompDashWords : Nat → List Char → List Char
  | 0, cs => cs
  | fuel + 1, cs =>
    match cs with
    | '-' :: rest =>
      if (rest.takeWhile isWordChar).isEmpty then cs
      else chompDashWords fuel (rest.dropWhile isWordChar)
    | _ => cs

/-- The bound-attribute pattern
`/:\w+(?:-\w+)*=["']\s*\$?t\s*\(\s*(['"` ++ "`" ++ `])([^'"` ++ "`" ++ `]+)\1/`. -/
def matchBoundAttrAt : List Char → Option (String × List Char)
  | ':' :: cs =>
    if (cs.takeWhile isWordChar).isEmpty then none
    else
      match chompDashWords cs.length (cs.dropWhile isWordChar) with
      | '=' :: qa :: cs2 =>
        if qa == '"' || qa == '\x27' then
          match matchOptDollarT (cs2.dropWhile isJsWs) with
          | some cs3 => (matchCallQuoted cs3).map (fun r => (r.1, r.2.2))
          | none => none
        else none
      | _ => none
  | _ => none

/-- The template-side template-literal pattern ``/\$?t\s*\(\s*`([^`]+)`/``. -/
def matchTplTAt (cs : List Char) : Option (String × List Char) :=
  match matchOptDollarT cs with
  | some cs1 => matchCallTick cs1
  | none => none

/-- The script-side simple-call pattern
`/\bt\s*\(\s*(['"` ++ "`" ++ `])([^'"` ++ "`" ++ `]+)\1/` (the word
boundary is checked by the scanner); returns the closing quote so the
scanner can resume with the correct previous character. -/
def matchSimpleAt : List Char → Option (String × Char × List Char)
  | 't' :: cs => matchCallQuoted cs
  | _ => none

/-- The script-side template-literal pattern ``/\bt\s*\(\s*`([^`]+)`/``. -/
def matchTickScriptAt : List Char → Option (String × Char × List Char)
  | 't' :: cs => (matchCallTick cs).map (fun r => (r.1, '`', r.2))
  | _ => none

/-! ## The `exec` loops

`scanWith` models the `while ((match = regex.exec(line)) !== null)` loop:
try the pattern at each position from the left, and resume after the end
of a match.  Every matcher above consumes at least one character on
success, so `line.length` steps of fuel always suffice.  `scanWithB`
additionally tracks the previous character for the `\b` assertion of the
script patterns (the match itself always ends in a quote character, which
is not a word character).
-/

def scanWith (m : List Char → Option (String × List Char)) :
    Nat → List Char → List String
  | 0, _ => []
  | _, [] => []
  | fuel + 1, c :: cs =>
    match m (c :: cs) with
    | some (g, rest) => g :: scanWith m fuel rest
    | none => scanWith m fuel cs

def scanWithB (m : List Char → Option (String × Char × List Char)) :
    Nat → Option Char → List Char → List String
  | 0, _, _ => []
  | _, _, [] => []
  | fuel + 1, prev, c :: cs =>
    let bOk :=
      match prev with
      | none => true
      | some p => !isWordChar p
    if bOk then
      match m (c :: cs) with
      | some (g, last, rest) => g :: scanWithB m fuel (some last) rest
      | none => scanWithB m fuel (some c) cs
    else scanWithB m fuel (some c) cs

/-- All interpolation-pattern matches on one template line. -/
def scanInterp (line : List Char) : List String := scanWith matchInterpAt line.length line

/-- All bound-attribute-pattern matches on one template line. -/
def scanBoundAttr (line : List Char) : List String :=
  scanWith matchBoundAttrAt line.length line

/-- All template-literal-pattern matches on one template line. -/
def scanTplT (line : List Char) : List String := scanWith matchTplTAt line.length line

/-- All simple-call-pattern matches on one script line. -/
def scanSimpleT (line : List Char) : List String :=
  scanWithB matchSimpleAt line.length none line

/-- All template-literal-pattern matches on one script line. -/
def scanTickScript (line : List Char) : List String :=
  scanWithB matchTickScriptAt line.length none line

/-! ## Data model (`src/types.ts`) and the extractor (`src/extractor.ts`) -/

/-- The `context` discriminator of a `TranslationKey`. -/
inductive SectionKind where
  | template
  | script
deriving DecidableEq

/-- `TranslationKey` from `src/types.ts`. -/
structure TranslationKey where
  key : String
  file : String
  line : Nat
  context : SectionKind
  isDynamic : Bool
  rawPattern : Option String := none
deriving DecidableEq

/-- `calculateSourceLine` from `src/parser.ts`. -/
def calculateSourceLine (sectionLine sectionStartLine : Nat) : Nat :=
  sectionStartLine + sectionLine

/-- The `` `${rawPattern}` `` reconstruction of a matched template literal. -/
def wrapTicks (g : String) : String := "`" ++ g ++ "`"

/-- The template-literal branch shared by both extractors: a key whose
matched literal contains `${` is dynamic with the raw literal preserved,
otherwise it is a regular static key. -/
def tplKey (filePath : String) (lineNumber : Nat) (ctx : SectionKind) (g : String) :
    TranslationKey :=
  if containsSeq dollarBrace g.data then
    { key := "", file := filePath, line := lineNumber, context := ctx,
      isDynamic := true, rawPattern := some (wrapTicks g) }
  else
    { key := g, file := filePath, line := lineNumber, context := ctx, isDynamic := false }

/-- The per-line body of `extractFromTemplate`. -/
def lineKeysTemplate (filePath : String) (lineNumber : Nat) (line : List Char) :
    List TranslationKey :=
  (scanInterp line).map (fun g =>
      { key := g, file := filePath, line := lineNumber, context := .template,
        isDynamic := false }) ++
  (scanBoundAttr line).map (fun g =>
      { key := g, file := filePath, line := lineNumber, context := .template,
        isDynamic := false }) ++
  (scanTplT line).map (tplKey filePath lineNumber .template)

/-- The `for (let i = 0; ...)` loop over section lines; the second argument
is the 0-based index of the first line of the list. -/
def extractLinesWith (lineKeys : Nat → List Char → List TranslationKey)
    (startLine : Nat) : Nat → List (List Char) → List TranslationKey
  | _, [] => []
  | i, line :: rest =>
    lineKeys (calculateSourceLine (i + 1) startLine) line ++
      extractLinesWith lineKeys startLine (i + 1) rest

/-- `extractFromTemplate` from `src/extractor.ts`. -/
def extractFromTemplate (template filePath : String) (startLine : Nat) :
    List TranslationKey :=
  extractLinesWith (lineKeysTemplate filePath) startLine 0 (splitLines template.data)

/-- One attempt of the `/useI18n\s*\(/` test. -/
def matchUseI18nAt (cs : List Char) : Bool :=
  match stripSeq "useI18n".data cs with
  | some rest =>
    match rest.dropWhile isJsWs with
    | '(' :: _ => true
    | _ => false
  | none => false

/-- One attempt of the `/const\s*\{\s*t\s*[,}]/` test. -/
def matchDestructTAt (cs : List Char) : Bool :=
  match stripSeq "const".data cs with
  | some r1 =>
    match r1.dropWhile isJsWs with
    | '\x7b' :: r2 =>
      match r2.dropWhile isJsWs with
      | 't' :: r3 =>
        match r3.dropWhile isJsWs with
        | ',' :: _ => true
        | '\x7d' :: _ => true
        | _ => false
      | _ => false
    | _ => false
  | none => false

/-- `RegExp.prototype.test`: does the pattern match at some position? -/
def existsMatchAt (p : List Char → Bool) : List Char → Bool
  | [] => p []
  | c :: cs => p (c :: cs) || existsMatchAt p cs

/-- The `usesI18n` guard of `extractFromScript`. -/
def usesI18n (script : List Char) : Bool :=
  existsMatchAt matchUseI18nAt script || existsMatchAt matchDestructTAt script

/-- The per-line body of `extractFromScript` (import and type-declaration
lines are skipped outright). -/
def lineKeysScript (filePath : String) (lineNumber : Nat) (line : List Char) :
    List TranslationKey :=
  if startsWithSeq "import ".data (jsTrim line) || startsWithSeq "type ".data (jsTrim line) then []
  else
    (scanSimpleT line).map (fun g =>
        { key := g, file := filePath, line := lineNumber, context := .script,
          isDynamic := false }) ++
    (scanTickScript line).map (tplKey filePath lineNumber .script)

/-- `extractFromScript` from `src/extractor.ts`. -/
def extractFromScript (script filePath : String) (startLine : Nat) :
    List TranslationKey :=
  if usesI18n script.data then
    extractLinesWith (lineKeysScript filePath) startLine 0 (splitLines script.data)
  else []

/-- `ParsedVueSFC` from `src/types.ts`. -/
structure ParsedVueSFC where
  filePath : String
  template : Option String
  templateStartLine : Nat
  script : Option String
  scriptStartLine : Nat
  scriptSetup : Option String
  scriptSetupStartLine : Nat

/-- `extractTranslationKeys` from `src/extractor.ts`. -/
def extractTranslationKeys (parsed : ParsedVueSFC) : List TranslationKey :=
  (match parsed.template with
   | some t => extractFromTemplate t parsed.filePath parsed.templateStartLine
   | none => []) ++
  (match parsed.scriptSetup with
   | some s => extractFromScript s parsed.filePath parsed.scriptSetupStartLine
   | none => []) ++
  (match parsed.script with
   | some s => extractFromScript s parsed.filePath parsed.scriptStartLine
   | none => [])

/-! ## `getUniqueKeys` (`src/extractor.ts`)

The JS `Set` accumulates keys in first-insertion order and
`Array.from(set).sort()` sorts them with the default comparator, which on
strings is lexicographic comparison of code units.  `strLe` is that
comparator.
-/

/-- Lexicographic comparison of character lists (the JS default sort
comparator on strings). -/
def charListLe : List Char → List Char → Bool
  | [], _ => true
  | _ :: _, [] => false
  | a :: as, b :: bs => if a < b then true else if b < a then false else charListLe as bs

/-- Lexicographic `≤` on strings. -/
def strLe (a b : String) : Bool := charListLe a.data b.data

/-- `strLe` as a relation, for the sort. -/
def strLeR (a b : String) : Prop := strLe a b = true

instance : DecidableRel strLeR := fun _ _ => instDecidableEqBool _ _

/-- JS `Set.prototype.add`: append if not already present. -/
def addUniqueKey (acc : List String) (s : String) : List String :=
  if s ∈ acc then acc else acc ++ [s]

/-- The `Set`-building loop of `getUniqueKeys` (dynamic keys and falsy,
i.e. empty, keys are skipped). -/
def collectStaticKeys (keys : List TranslationKey) : List String :=
  keys.foldl (fun acc k => if !k.isDynamic && k.key != "" then addUniqueKey acc k.key else acc) []

/-- `getUniqueKeys` from `src/extractor.ts`. -/
def getUniqueKeys (keys : List TranslationKey) : List String :=
  List.insertionSort strLeR (collectStaticKeys keys)

/-! ## Catalog loader (`src/locales.ts`)

A parsed locale-file value is a JSON-like tree.  `flattenObject` in the
source walks `Object.entries` of a plain object, whose iteration order for
string keys is insertion order, so an object is modelled as the ordered
list of its fields.  Array contents are never traversed by the flattening
(arrays are skipped by the `!Array.isArray` guard), likewise numbers,
booleans and `null`, so their payloads are irrelevant here.
-/

/-- A JSON-like value as produced by the locale-file parsing. -/
inductive JValue where
  | str (s : String)
  | num
  | boolean (b : Bool)
  | null
  | arr (elems : List JValue)
  | obj (fields : List (String × JValue))

/-- `LocaleEntry` from `src/types.ts`. -/
structure LocaleEntry where
  key : String
  value : String
  file : String
  isEmpty : Bool
deriving DecidableEq

/-- The ``prefix ? `${prefix}.${key}` : key`` join of `flattenObject`. -/
def mkFullKey (pre k : String) : String := if pre == "" then k else pre ++ "." ++ k

mutual
/-- One step of `flattenObject` for a single value: plain objects recurse,
string leaves emit one entry whose `isEmpty` flag is `value.trim() === ''`,
all other leaves are silently dropped. -/
def flattenValue (v : JValue) (fullKey file : String) : List LocaleEntry :=
  match v with
  | .obj fields => flattenFields fields fullKey file
  | .str s => [{ key := fullKey, value := s, file := file, isEmpty := jsTrimStr s == "" }]
  | _ => []

/-- `flattenObject` from `src/locales.ts`, over the ordered field list of
an object (the `for...of Object.entries` loop). -/
def flattenFields (fields : List (String × JValue)) (pre file : String) :
    List LocaleEntry :=
  match fields with
  | [] => []
  | (k, v) :: rest => flattenValue v (mkFullKey pre k) file ++ flattenFields rest pre file
end

/-- The JS `Map<string, LocaleEntry>`: an insertion-ordered association
list. -/
abbrev LocaleLookup := List (String × LocaleEntry)

/-- `Map.prototype.set`: update in place if the key exists, else append. -/
def mapSet (m : LocaleLookup) (k : String) (v : LocaleEntry) : LocaleLookup :=
  if m.any (fun p => p.1 == k) then
    m.map (fun p => if p.1 == k then (k, v) else p)
  else m ++ [(k, v)]

/-- `Map.prototype.get`. -/
def mapGet (m : LocaleLookup) (k : String) : Option LocaleEntry :=
  (m.find? (fun p => p.1 == k)).map Prod.snd

/-- `createLocaleLookup` from `src/locales.ts`. -/
def createLocaleLookup (entries : List LocaleEntry) : LocaleLookup :=
  entries.foldl (fun m e => mapSet m e.key e) []

/-! ## Validator (`src/validator.ts`) -/

/-- The `type` discriminator of an `AuditIssue`. -/
inductive IssueType where
  | missing_translation
  | hardcoded_text
  | empty_value
  | dynamic_key
deriving DecidableEq

/-- The `severity` of an `AuditIssue`. -/
inductive Severity where
  | error
  | warning
  | info
deriving DecidableEq

/-- `AuditIssue` from `src/types.ts`. -/
structure AuditIssue where
  type : IssueType
  severity : Severity
  file : String
  line : Nat
  key : Option String := none
  text : Option String := none
  message : String
deriving DecidableEq

/-- The message of a `dynamic_key` issue (a JS template literal renders an
absent raw pattern as the text `undefined`). -/
def dynamicKeyMessage (raw : Option String) : String :=
  "Dynamic translation key detected: " ++ raw.getD "undefined" ++ ". Manual review required."

/-- The message of a `missing_translation` issue. -/
def missingMessage (k : String) : String :=
  "Translation key " ++ sq ++ k ++ sq ++ " not found in English locale"

/-- The message of an `empty_value` issue. -/
def emptyValueMessage (k : String) : String :=
  "Translation key " ++ sq ++ k ++ sq ++ " has an empty value"

/-- The body of the `for (const key of keys)` loop of `validateKeys`:
the issues contributed by one call site. -/
def validateOne (rel : String → String) (lookup : LocaleLookup) (k : TranslationKey) :
    List AuditIssue :=
  if k.isDynamic then
    [{ type := .dynamic_key, severity := .info, file := rel k.file, line := k.line,
       key := k.rawPattern, message := dynamicKeyMessage k.rawPattern }]
  else
    match mapGet lookup k.key with
    | none =>
      [{ type := .missing_translation, severity := .error, file := rel k.file,
         line := k.line, key := some k.key, message := missingMessage k.key }]
    | some e =>
      if e.isEmpty then
        [{ type := .empty_value, severity := .warning, file := rel k.file,
           line := k.line, key := some k.key, message := emptyValueMessage k.key }]
      else []

/-- `validateKeys` from `src/validator.ts` (the loop appends each call
site's issues in order). -/
def validateKeys (rel : String → String) (keys : List TranslationKey)
    (lookup : LocaleLookup) : List AuditIssue :=
  keys.flatMap (validateOne rel lookup)

/-- The result record of `countIssuesByType`. -/
structure IssueCounts where
  missingTranslations : Nat
  emptyValues : Nat
  dynamicKeys : Nat
deriving DecidableEq

/-- `countIssuesByType` from `src/validator.ts` (the `switch` loop). -/
def countIssuesByType (issues : List AuditIssue) : IssueCounts :=
  issues.foldl
    (fun acc i =>
      match i.type with
      | .missing_translation => { acc with missingTranslations := acc.missingTranslations + 1 }
      | .empty_value => { acc with emptyValues := acc.emptyValues + 1 }
      | .dynamic_key => { acc with dynamicKeys := acc.dynamicKeys + 1 }
      | .hardcoded_text => acc)
    ⟨0, 0, 0⟩

/-! ## Hardcoded-text detection (`src/hardcoded.ts`)

A compiled exclusion `RegExp` is modelled by its `test` predicate
`String → Bool`; the built-in default patterns are implemented below.
-/

/-- `startsWith` test for anchored literal patterns. -/
def startsWithStr (p s : String) : Bool := startsWithSeq p.data s.data

/-- ASCII hexadecimal digit (case-insensitive). -/
def isHexDigitCh (c : Char) : Bool :=
  c.isDigit || ('a' ≤ c && c ≤ 'f') || ('A' ≤ c && c ≤ 'F')

/-- The kebab-case exclusion `/^[a-z]+(-[a-z]+)+$/`: at least two
dash-separated nonempty lowercase groups and nothing else. -/
def kebabCaseTest (s : String) : Bool :=
  let ps := splitOnChar '-' s.data
  decide (2 ≤ ps.length) && ps.all (fun p => !p.isEmpty && p.all Char.isLower)

/-- The snake-case exclusion `/^[a-z]+_[a-z]+/i` (end unanchored,
case-insensitive). -/
def snakeCaseTest (s : String) : Bool :=
  match s.data with
  | c :: _ =>
    c.isAlpha &&
      (match s.data.dropWhile Char.isAlpha with
       | '_' :: d :: _ => d.isAlpha
       | _ => false)
  | [] => false

/-- The URL exclusion `/^https?:\/\//`. -/
def httpTest (s : String) : Bool :=
  startsWithStr "http://" s || startsWithStr "https://" s

/-- The digits-only exclusion `/^\d+$/`. -/
def digitsOnlyTest (s : String) : Bool :=
  !s.data.isEmpty && s.data.all Char.isDigit

/-- The color-code exclusion `/^#[0-9a-f]{3,8}$/i`. -/
def hexColorTest (s : String) : Bool :=
  match s.data with
  | '#' :: rest =>
    rest.all isHexDigitCh && decide (3 ≤ rest.length) && decide (rest.length ≤ 8)
  | _ => false

/-- The interpolation-fragment exclusion `/^\$\{/`. -/
def dollarBraceTest (s : String) : Bool := startsWithSeq dollarBrace s.data

/-- `DEFAULT_EXCLUDE_PATTERNS` from `src/hardcoded.ts`, each regex as its
`test` predicate, in source order. -/
def DEFAULT_EXCLUDE_PATTERNS : List (String → Bool) :=
  [startsWithStr "v-", startsWithStr "@", startsWithStr ":", startsWithStr "#",
   startsWithStr "route(", startsWithStr "router.",
   httpTest, startsWithStr "mailto:", startsWithStr "/",
   kebabCaseTest, snakeCaseTest, digitsOnlyTest, hexColorTest, dollarBraceTest]

/-- `matchesExclusionPattern` from `src/hardcoded.ts` (every pattern in the
list passed by `detectHardcodedStrings` is a compiled regex, modelled by
its test predicate). -/
def matchesExclusionPattern (text : String) (patterns : List (String → Bool)) : Bool :=
  patterns.any (fun p => p text)

/-- `isComponentName` from `src/hardcoded.ts`: `/^[A-Z][a-zA-Z0-9]*$/`. -/
def isComponentName (text : String) : Bool :=
  match text.data with
  | c :: rest => c.isUpper && rest.all Char.isAlphanum
  | [] => false

/-- `isTechnicalIdentifier` from `src/hardcoded.ts`. -/
def isTechnicalIdentifier (text : String) : Bool :=
  (match text.data with
   | c :: rest => c.isUpper && rest.all (fun d => d.isUpper || d.isDigit || d == '_')
   | [] => false) ||
  ((match text.data with
    | c :: rest => c.isLower && rest.all Char.isAlphanum
    | [] => false) && decide (text.length < 20)) ||
  (match text.data with
   | '.' :: rest => !rest.isEmpty && rest.all isWordChar
   | _ => false)

/-- Confidence level of a hardcoded-text candidate. -/
inductive Confidence where
  | high
  | medium
  | low
deriving DecidableEq

/-- The terminal-punctuation class `[.!?:,]`. -/
def endsPunct (c : Char) : Bool :=
  c == '.' || c == '!' || c == '?' || c == ':' || c == ','

/-- `calculateConfidence` from `src/hardcoded.ts`. -/
def calculateConfidence (text : String) : Confidence :=
  let trimmed := jsTrim text.data
  if (match trimmed with
      | c :: d :: _ => c.isUpper && d.isLower
      | _ => false) && containsSeq [' '] trimmed then .high
  else if (match trimmed.getLast? with
           | some c => endsPunct c
           | none => false) && decide (5 < trimmed.length) then .high
  else if (match trimmed with
           | c :: rest => c.isUpper && !rest.isEmpty && rest.all Char.isLower
           | [] => false) then .medium
  else if containsSeq [' '] trimmed && decide (10 < trimmed.length) then .medium
  else .low

/-- A text node found by `extractTextNodes`. -/
structure TextNode where
  text : String
  line : Nat
  context : String
deriving DecidableEq

/-- `HardcodedString` from `src/types.ts`. -/
structure HardcodedString where
  text : String
  file : String
  line : Nat
  confidence : Confidence
  context : String
deriving DecidableEq

/-- `HardcodedTextRules` from `src/types.ts`; the caller-supplied exclusion
regexes appear as their `test` predicates. -/
structure HardcodedTextRules where
  minLength : Nat
  excludeAllCaps : Bool
  excludePatterns : List (String → Bool)

/-- The `exec` loop of the text-node pattern `/>([^<\x7b]+)</g` on one
line, tracking match indices; returns `(group, matchIndex)` pairs. -/
def scanTextLine : Nat → Nat → List Char → List (List Char × Nat)
  | 0, _, _ => []
  | _, _, [] => []
  | fuel + 1, pos, c :: rest =>
    if c == '>' then
      let body := rest.takeWhile (fun ch => ch != '<' && ch != '\x7b')
      match rest.dropWhile (fun ch => ch != '<' && ch != '\x7b') with
      | '<' :: rest2 =>
        if body.isEmpty then scanTextLine fuel (pos + 1) rest
        else (body, pos) :: scanTextLine fuel (pos + body.length + 2) rest2
      | _ => scanTextLine fuel (pos + 1) rest
    else scanTextLine fuel (pos + 1) rest

/-- JS `String.prototype.substring(start, finish)` on a character list
(`start ≤ finish` at every use below). -/
def substrJs (line : List Char) (start finish : Nat) : String :=
  String.mk ((line.drop start).take (finish - start))

/-- The per-line, per-match body of `extractTextNodes`: trim, skip empty
and interpolation-touching texts, and attach a ±20-character context
snippet around the match. -/
def lineTextNodes (lineIdx : Nat) (line : List Char) : List TextNode :=
  (scanTextLine line.length 0 line).filterMap (fun bp =>
    let text := jsTrim bp.1
    if text.isEmpty then none
    else if containsSeq ['\x7b', '\x7b'] text || containsSeq ['\x7d', '\x7d'] text then none
    else
      some { text := String.mk text, line := lineIdx + 1,
             context := substrJs line (bp.2 - 20)
               (min line.length (bp.2 + (bp.1.length + 2) + 20)) })

/-- The line loop of `extractTextNodes`. -/
def textNodesLines : Nat → List (List Char) → List TextNode
  | _, [] => []
  | i, line :: rest => lineTextNodes i line ++ textNodesLines (i + 1) rest

/-- `extractTextNodes` from `src/hardcoded.ts`. -/
def extractTextNodes (template : String) : List TextNode :=
  textNodesLines 0 (splitLines template.data)

/-- JS `String.prototype.toUpperCase` (ASCII; the all-caps filter is only
compared for equality). -/
def toUpperJs (s : String) : String := String.mk (s.data.map Char.toUpper)

/-- The filter chain of `detectHardcodedStrings`, in source order: length,
all-caps, exclusion patterns, component name, technical identifier. -/
def keepCandidate (rules : HardcodedTextRules) (excludeAll : List (String → Bool))
    (text : String) : Bool :=
  !(decide (text.length < rules.minLength)) &&
  !(rules.excludeAllCaps && text == toUpperJs text && decide (2 < text.length)) &&
  !(matchesExclusionPattern text excludeAll) &&
  !(isComponentName text) &&
  !(isTechnicalIdentifier text)

/-- `detectHardcodedStrings` from `src/hardcoded.ts`. -/
def detectHardcodedStrings (parsed : ParsedVueSFC) (rules : HardcodedTextRules)
    (rel : String → String) : List HardcodedString :=
  match parsed.template with
  | none => []
  | some tpl =>
    (extractTextNodes tpl).filterMap (fun node =>
      if keepCandidate rules (DEFAULT_EXCLUDE_PATTERNS ++ rules.excludePatterns) node.text then
        some { text := node.text, file := rel parsed.filePath,
               line := calculateSourceLine node.line parsed.templateStartLine,
               confidence := calculateConfidence node.text, context := node.context }
      else none)

/-! ## The audit orchestrator (summary computation of `runAudit`) -/

/-- Rendering of a confidence level inside a hardcoded-text message. -/
def confidenceText : Confidence → String
  | .high => "high"
  | .medium => "medium"
  | .low => "low"

/-- The promotion of a `HardcodedString` to a warning issue in `runAudit`. -/
def hardcodedToIssue (h : HardcodedString) : AuditIssue :=
  { type := .hardcoded_text, severity := .warning, file := h.file, line := h.line,
    text := some h.text,
    message := "Potential hardcoded text: \"" ++ h.text ++ "\" (confidence: " ++
      confidenceText h.confidence ++ ")" }

/-- The issues contributed by one file in the `runAudit` loop. -/
def fileIssues (rel : String → String) (lookup : LocaleLookup)
    (rules : HardcodedTextRules) (p : ParsedVueSFC) : List AuditIssue :=
  validateKeys rel (extractTranslationKeys p) lookup ++
    (detectHardcodedStrings p rules rel).map hardcodedToIssue

/-- The coverage computation of `runAudit`:
`totalUniqueKeys > 0 ? Math.round(((totalUniqueKeys - missingKeys) / totalUniqueKeys) * 1000) / 10 : 100`
(`Math.round` rounds half toward positive infinity, exactly as `round`). -/
def coverageOf (totalUniqueKeys missingKeys : Nat) : ℚ :=
  if 0 < totalUniqueKeys then
    ((round (((totalUniqueKeys : ℚ) - (missingKeys : ℚ)) / (totalUniqueKeys : ℚ) * 1000) : ℤ) : ℚ) / 10
  else 100

/-- `AuditSummary` from `src/types.ts`. -/
structure AuditSummary where
  filesScanned : Nat
  totalKeysFound : Nat
  uniqueKeysFound : Nat
  missingTranslations : Nat
  hardcodedStrings : Nat
  emptyValues : Nat
  dynamicKeys : Nat
  coveragePercentage : ℚ
deriving DecidableEq

/-- The summary computation of `runAudit` (step 4), given the parsed files
in scan order and the catalog lookup. -/
def runAuditSummary (rel : String → String) (files : List ParsedVueSFC)
    (lookup : LocaleLookup) (rules : HardcodedTextRules) : AuditSummary :=
  let allKeys := files.flatMap extractTranslationKeys
  let allIssues := files.flatMap (fileIssues rel lookup rules)
  let uniqueKeys := getUniqueKeys allKeys
  let issueCounts := countIssuesByType allIssues
  { filesScanned := files.length,
    totalKeysFound := allKeys.length,
    uniqueKeysFound := uniqueKeys.length,
    missingTranslations := issueCounts.missingTranslations,
    hardcodedStrings := (allIssues.filter (fun i => i.type == .hardcoded_text)).length,
    emptyValues := issueCounts.emptyValues,
    dynamicKeys := issueCounts.dynamicKeys,
    coveragePercentage := coverageOf uniqueKeys.length issueCounts.missingTranslations }

/-! ## Derived and spec-side definitions -/

/-- The record invariant of extracted call sites (claim C9). -/
def KeyInvariant (k : TranslationKey) : Prop :=
  (k.isDynamic = true →
    k.key = "" ∧ ∃ raw, k.rawPattern = some raw ∧ raw.data.head? = some '`' ∧
      raw.data.getLast? = some '`' ∧ containsSeq dollarBrace raw.data = true) ∧
  (k.isDynamic = false → ¬ k.key = "" ∧ k.rawPattern = none)

/-- The last entry of a list whose key matches `k`, the value that a
sequence of `Map.set` calls leaves behind. -/
def lastWith (l : List LocaleEntry) (k : String) : Option LocaleEntry :=
  l.foldl (fun acc e => if e.key == k then some e else acc) none

/-- The coverage formula exactly as the spec sentence states it, in terms
of its own `U` (unique static keys) and `M`. -/
def claimCoverageFormula (U M : Nat) : ℚ :=
  if 0 < U then
    ((round (((U : ℚ) - (M : ℚ)) / (U : ℚ) * 1000) : ℤ) : ℚ) / 10
  else 100

/-- The claim's reading of `M` for C4: the number of unique static keys
that are missing from the catalog. -/
def claimUniqueMissing (allKeys : List TranslationKey) (lookup : LocaleLookup) : Nat :=
  ((getUniqueKeys allKeys).filter (fun s => (mapGet lookup s).isNone)).length

/-! ## Concrete demonstration inputs for the witnesses -/

/-- Default hardcoded-text rules (the tool's configuration defaults). -/
def demoRules : HardcodedTextRules :=
  { minLength := 3, excludeAllCaps := true, excludePatterns := [] }

/-- One template line reading two-brace `t` of the quoted key `a.b`. -/
def dupLine : List Char :=
  ['\x7b', '\x7b', ' ', 't', '(', '\x27', 'a', '.', 'b', '\x27', ')', ' ', '\x7d', '\x7d']

/-- A parsed file whose template invokes the same missing key on two lines. -/
def dupParsed : ParsedVueSFC :=
  { filePath := "Pages/Demo.vue",
    template := some (String.mk (dupLine ++ '\n' :: dupLine)),
    templateStartLine := 1, script := none, scriptStartLine := 1,
    scriptSetup := none, scriptSetupStartLine := 1 }

/-- A template consisting of the dynamic call `t` of the backtick literal
`s.` followed by an interpolation of `v`. -/
def dynDemoTemplate : String :=
  String.mk ['t', '(', '`', 's', '.', '$', '\x7b', 'v', '\x7d', '`', ')']

/-- The raw pattern the extractor preserves for `dynDemoTemplate`. -/
def dynDemoRaw : String := String.mk ['`', 's', '.', '$', '\x7b', 'v', '\x7d', '`']

/-- The dynamic call site extracted from `dynDemoTemplate` at start line 1. -/
def dynDemoKey : TranslationKey :=
  { key := "", file := "F.vue", line := 2, context := .template, isDynamic := true,
    rawPattern := some dynDemoRaw }

/-- A parsed file around `dynDemoTemplate`. -/
def dynDemoParsed : ParsedVueSFC :=
  { filePath := "F.vue", template := some dynDemoTemplate, templateStartLine := 1,
    script := none, scriptStartLine := 1, scriptSetup := none, scriptSetupStartLine := 1 }

/-- A static call site whose key is absent from the demo catalog. -/
def missDemoKey : TranslationKey :=
  { key := "dashboard.welcome", file := "Pages/D.vue", line := 7, context := .template,
    isDynamic := false }

/-- Locale fields with a single whitespace-only leaf under `a.b`. -/
def emptyValFields : List (String × JValue) := [("a", .obj [("b", .str " ")])]

/-- The flattened entry of `emptyValFields` under namespace `ns`. -/
def emptyValEntry : LocaleEntry :=
  { key := "ns.a.b", value := " ", file := "f", isEmpty := true }

/-- A lookup containing exactly `emptyValEntry`. -/
def emptyValLookup : LocaleLookup := [("ns.a.b", emptyValEntry)]

/-- A static call site that hits `emptyValEntry`. -/
def emptyValKey : TranslationKey :=
  { key := "ns.a.b", file := "F.vue", line := 3, context := .template, isDynamic := false }

/-- Catalog entries for the duplicate-key demonstration. -/
def dupE1 : LocaleEntry := { key := "common.save", value := "Save", file := "f1.ts", isEmpty := false }

/-- A later entry with the same key as `dupE1` from a file processed later. -/
def dupE2 : LocaleEntry := { key := "common.save", value := "Guardar", file := "f2.ts", isEmpty := false }

/-- A trailing entry with an unrelated key. -/
def dupE3 : LocaleEntry := { key := "common.cancel", value := "Cancel", file := "f2.ts", isEmpty := false }

/-- A parsed file whose template holds one hardcoded text node. -/
def hcDemoParsed : ParsedVueSFC :=
  { filePath := "F.vue",
    template := some (String.mk ('>' :: "Welcome to Dashboard".data ++ ['<'])),
    templateStartLine := 1, script := none, scriptStartLine := 1,
    scriptSetup := none, scriptSetupStartLine := 1 }

/-- A caller-supplied exclusion predicate for the monotonicity witness. -/
def hcDemoPattern : String → Bool := fun s => startsWithStr "W" s

/-- A script that calls `t` of a quoted key but never obtains the
translation function. -/
def noI18nScript : String :=
  String.mk ['c', 'o', 'n', 's', 't', ' ', 'm', ' ', '=', ' ', 't', '(', '\x27', 'a', '.',
    'b', '\x27', ')']

/-! ## Generic lemmas -/

theorem String.mk_ne_empty {l : List Char} (h : ¬ l = []) : ¬ String.mk l = "" := by
  intro he
  exact h (congrArg String.data he)

theorem startsWithSeq_append {n l : List Char} (l' : List Char)
    (h : startsWithSeq n l = true) : startsWithSeq n (l ++ l') = true := by
  induction n generalizing l with
  | nil => rfl
  | cons x xs ih =>
    cases l with
    | nil => simp [startsWithSeq] at h
    | cons c cs =>
      simp only [startsWithSeq, Bool.and_eq_true] at h
      simp only [List.cons_append, startsWithSeq, Bool.and_eq_true]
      exact ⟨h.1, ih h.2⟩

theorem containsSeq_nil_needle (l : List Char) : containsSeq [] l = true := by
  cases l <;> simp [containsSeq, startsWithSeq]

theorem containsSeq_append_right {n l : List Char} (l' : List Char)
    (h : containsSeq n l = true) : containsSeq n (l ++ l') = true := by
  induction l with
  | nil =>
    cases n with
    | nil => simpa using containsSeq_nil_needle l'
    | cons x xs => simp [containsSeq, startsWithSeq] at h
  | cons c cs ih =>
    simp only [containsSeq, Bool.or_eq_true] at h
    simp only [List.cons_append, containsSeq, Bool.or_eq_true]
    rcases h with h | h
    · exact Or.inl (by simpa using startsWithSeq_append l' h)
    · exact Or.inr (ih h)

theorem containsSeq_append_left {n : List Char} (l1 : List Char) {l2 : List Char}
    (h : containsSeq n l2 = true) : containsSeq n (l1 ++ l2) = true := by
  induction l1 with
  | nil => simpa using h
  | cons c cs ih =>
    simp only [List.cons_append, containsSeq, Bool.or_eq_true]
    exact Or.inr ih

theorem length_filterMap_le_of_imp {α β : Type} (f g : α → Option β)
    (h : ∀ x, (f x).isSome = true → (g x).isSome = true) (l : List α) :
    (l.filterMap f).length ≤ (l.filterMap g).length := by
  induction l with
  | nil => exact Nat.le_refl _
  | cons x xs ih =>
    cases hf : f x with
    | none =>
      cases hg : g x with
      | none => simpa [List.filterMap_cons, hf, hg] using ih
      | some c =>
        simp only [List.filterMap_cons, hf, hg, List.length_cons]
        exact Nat.le_succ_of_le ih
    | some b =>
      have hs : (g x).isSome = true := h x (by simp [hf])
      rcases hg : g x with _ | c
      · rw [hg] at hs; simp at hs
      · simp only [List.filterMap_cons, hf, hg, List.length_cons]
        exact Nat.succ_le_succ ih

/-! ## Scanner and matcher lemmas -/

theorem matchCallQuoted_group_ne {cs : List Char} {g : String} {q : Char}
    {rest : List Char} (h : matchCallQuoted cs = some (g, q, rest)) : ¬ g = "" := by
  unfold matchCallQuoted at h
  split at h
  · split at h
    · split at h
      · split at h
        · split at h
          · exact absurd h (by simp)
          · rename_i hguard
            injection h with h1
            injection h1 with hg _
            refine hg ▸ String.mk_ne_empty ?_
            intro hbody
            simp [hbody] at hguard
        · exact absurd h (by simp)
      · exact absurd h (by simp)
    · exact absurd h (by simp)
  · exact absurd h (by simp)

theorem matchCallTick_group_ne {cs : List Char} {g : String} {rest : List Char}
    (h : matchCallTick cs = some (g, rest)) : ¬ g = "" := by
  unfold matchCallTick at h
  split at h
  · split at h
    · split at h
      · split at h
        · exact absurd h (by simp)
        · rename_i hguard
          injection h with h1
          injection h1 with hg _
          refine hg ▸ String.mk_ne_empty ?_
          intro hbody
          simp [hbody] at hguard
      · exact absurd h (by simp)
    · exact absurd h (by simp)
  · exact absurd h (by simp)

theorem matchInterpAt_group_ne {cs : List Char} {g : String} {rest : List Char}
    (h : matchInterpAt cs = some (g, rest)) : ¬ g = "" := by
  unfold matchInterpAt at h
  split at h
  · split at h
    · rcases Option.map_eq_some'.mp h with ⟨r, hr, hf⟩
      obtain ⟨r1, r2, r3⟩ := r
      have hg : r1 = g := congrArg Prod.fst hf
      exact hg ▸ matchCallQuoted_group_ne hr
    · exact absurd h (by simp)
  · exact absurd h (by simp)

theorem matchBoundAttrAt_group_ne {cs : List Char} {g : String} {rest : List Char}
    (h : matchBoundAttrAt cs = some (g, rest)) : ¬ g = "" := by
  unfold matchBoundAttrAt at h
  split at h
  · split at h
    · exact absurd h (by simp)
    · split at h
      · split at h
        · split at h
          · rcases Option.map_eq_some'.mp h with ⟨r, hr, hf⟩
            obtain ⟨r1, r2, r3⟩ := r
            have hg : r1 = g := congrArg Prod.fst hf
            exact hg ▸ matchCallQuoted_group_ne hr
          · exact absurd h (by simp)
        · exact absurd h (by simp)
      · exact absurd h (by simp)
  · exact absurd h (by simp)

theorem matchTplTAt_group_ne {cs : List Char} {g : String} {rest : List Char}
    (h : matchTplTAt cs = some (g, rest)) : ¬ g = "" := by
  unfold matchTplTAt at h
  split at h
  · exact matchCallTick_group_ne h
  · exact absurd h (by simp)

theorem matchSimpleAt_group_ne {cs : List Char} {g : String} {q : Char}
    {rest : List Char} (h : matchSimpleAt cs = some (g, q, rest)) : ¬ g = "" := by
  unfold matchSimpleAt at h
  split at h
  · exact matchCallQuoted_group_ne h
  · exact absurd h (by simp)

theorem matchTickScriptAt_group_ne {cs : List Char} {g : String} {q : Char}
    {rest : List Char} (h : matchTickScriptAt cs = some (g, q, rest)) : ¬ g = "" := by
  unfold matchTickScriptAt at h
  split at h
  · rcases Option.map_eq_some'.mp h with ⟨r, hr, hf⟩
    obtain ⟨r1, r2⟩ := r
    have hg : r1 = g := congrArg Prod.fst hf
    exact hg ▸ matchCallTick_group_ne hr
  · exact absurd h (by simp)

theorem scanWith_prop {m : List Char → Option (String × List Char)} {P : String → Prop}
    (hm : ∀ cs g rest, m cs = some (g, rest) → P g) :
    ∀ fuel cs g, g ∈ scanWith m fuel cs → P g := by
  intro fuel
  induction fuel with
  | zero => intro cs g h; simp [scanWith] at h
  | succ n ih =>
    intro cs g h
    cases cs with
    | nil => simp [scanWith] at h
    | cons c cs' =>
      cases hm' : m (c :: cs') with
      | none =>
        simp only [scanWith, hm'] at h
        exact ih cs' g h
      | some pr =>
        simp only [scanWith, hm'] at h
        rcases List.mem_cons.mp h with h | h
        · exact h ▸ hm _ _ _ (by rw [hm'])
        · exact ih pr.2 g h

theorem scanWithB_prop {m : List Char → Option (String × Char × List Char)}
    {P : String → Prop}
    (hm : ∀ cs g c rest, m cs = some (g, c, rest) → P g) :
    ∀ fuel prev cs g, g ∈ scanWithB m fuel prev cs → P g := by
  intro fuel
  induction fuel with
  | zero => intro prev cs g h; simp [scanWithB] at h
  | succ n ih =>
    intro prev cs g h
    cases cs with
    | nil => simp [scanWithB] at h
    | cons c cs' =>
      simp only [scanWithB] at h
      split at h
      · cases hm' : m (c :: cs') with
        | none =>
          rw [hm'] at h
          exact ih _ cs' g h
        | some pr =>
          rw [hm'] at h
          rcases List.mem_cons.mp h with h | h
          · exact h ▸ hm _ _ _ _ (by rw [hm'])
          · exact ih _ pr.2.2 g h
      · exact ih _ cs' g h

theorem scanInterp_ne {line : List Char} {g : String} (h : g ∈ scanInterp line) :
    ¬ g = "" :=
  scanWith_prop (fun _ _ _ hm => matchInterpAt_group_ne hm) _ _ _ h

theorem scanBoundAttr_ne {line : List Char} {g : String} (h : g ∈ scanBoundAttr line) :
    ¬ g = "" :=
  scanWith_prop (fun _ _ _ hm => matchBoundAttrAt_group_ne hm) _ _ _ h

theorem scanTplT_ne {line : List Char} {g : String} (h : g ∈ scanTplT line) :
    ¬ g = "" :=
  scanWith_prop (fun _ _ _ hm => matchTplTAt_group_ne hm) _ _ _ h

theorem scanSimpleT_ne {line : List Char} {g : String} (h : g ∈ scanSimpleT line) :
    ¬ g = "" :=
  scanWithB_prop (fun _ _ _ _ hm => matchSimpleAt_group_ne hm) _ _ _ _ h

theorem scanTickScript_ne {line : List Char} {g : String} (h : g ∈ scanTickScript line) :
    ¬ g = "" :=
  scanWithB_prop (fun _ _ _ _ hm => matchTickScriptAt_group_ne hm) _ _ _ _ h

/-! ## Extraction membership lemmas -/

theorem mem_extractLinesWith {f : Nat → List Char → List TranslationKey} {s : Nat}
    {k : TranslationKey} :
    ∀ {j : Nat} {ls : List (List Char)}, k ∈ extractLinesWith f s j ls →
      ∃ i line, ls[i]? = some line ∧ k ∈ f (calculateSourceLine (j + i + 1) s) line := by
  intro j ls
  induction ls generalizing j with
  | nil => intro h; simp [extractLinesWith] at h
  | cons line rest ih =>
    intro h
    rcases List.mem_append.mp h with h | h
    · exact ⟨0, line, by simp, h⟩
    · rcases ih h with ⟨i, line', hget, hmem⟩
      refine ⟨i + 1, line', by simpa using hget, ?_⟩
      have harith : j + (i + 1) + 1 = j + 1 + i + 1 := by omega
      rw [harith]
      exact hmem

theorem tplKey_dyn {fp : String} {n : Nat} {ctx : SectionKind} {g : String}
    (h : containsSeq dollarBrace g.data = true) :
    tplKey fp n ctx g =
      ⟨"", fp, n, ctx, true, some (wrapTicks g)⟩ := by
  simp [tplKey, h]

theorem tplKey_static {fp : String} {n : Nat} {ctx : SectionKind} {g : String}
    (h : containsSeq dollarBrace g.data = false) :
    tplKey fp n ctx g = ⟨g, fp, n, ctx, false, none⟩ := by
  simp [tplKey, h]

theorem mem_lineKeysTemplate {fp : String} {n : Nat} {line : List Char}
    {k : TranslationKey} (h : k ∈ lineKeysTemplate fp n line) :
    (∃ g, (g ∈ scanInterp line ∨ g ∈ scanBoundAttr line) ∧
        k = ⟨g, fp, n, .template, false, none⟩) ∨
    (∃ g, g ∈ scanTplT line ∧ k = tplKey fp n .template g) := by
  unfold lineKeysTemplate at h
  rcases List.mem_append.mp h with h | h
  · rcases List.mem_append.mp h with h | h
    · rcases List.mem_map.mp h with ⟨g, hg, hk⟩
      exact Or.inl ⟨g, Or.inl hg, hk.symm⟩
    · rcases List.mem_map.mp h with ⟨g, hg, hk⟩
      exact Or.inl ⟨g, Or.inr hg, hk.symm⟩
  · rcases List.mem_map.mp h with ⟨g, hg, hk⟩
    exact Or.inr ⟨g, hg, hk.symm⟩

theorem mem_lineKeysScript {fp : String} {n : Nat} {line : List Char}
    {k : TranslationKey} (h : k ∈ lineKeysScript fp n line) :
    (∃ g, g ∈ scanSimpleT line ∧ k = ⟨g, fp, n, .script, false, none⟩) ∨
    (∃ g, g ∈ scanTickScript line ∧ k = tplKey fp n .script g) := by
  unfold lineKeysScript at h
  split at h
  · simp at h
  · rcases List.mem_append.mp h with h | h
    · rcases List.mem_map.mp h with ⟨g, hg, hk⟩
      exact Or.inl ⟨g, hg, hk.symm⟩
    · rcases List.mem_map.mp h with ⟨g, hg, hk⟩
      exact Or.inr ⟨g, hg, hk.symm⟩

theorem wrapTicks_data (g : String) :
    (wrapTicks g).data = ('`' :: g.data) ++ ['`'] := by
  show (("`" ++ g) ++ "`").data = _
  rw [String.data_append, String.data_append]
  rfl

theorem KeyInvariant_static {g fp : String} {n : Nat} {ctx : SectionKind}
    (hg : ¬ g = "") : KeyInvariant ⟨g, fp, n, ctx, false, none⟩ := by
  constructor
  · intro h; simp at h
  · intro _; exact ⟨hg, rfl⟩

theorem KeyInvariant_tplKey {fp : String} {n : Nat} {ctx : SectionKind} {g : String}
    (hg : ¬ g = "") : KeyInvariant (tplKey fp n ctx g) := by
  by_cases hc : containsSeq dollarBrace g.data = true
  · rw [tplKey_dyn hc]
    constructor
    · intro _
      refine ⟨rfl, wrapTicks g, rfl, ?_, ?_, ?_⟩
      · rw [wrapTicks_data, List.cons_append]; rfl
      · rw [wrapTicks_data]
        exact List.getLast?_concat _
      · rw [wrapTicks_data, List.cons_append]
        exact containsSeq_append_left ['`'] (containsSeq_append_right ['`'] hc)
    · intro h; simp at h
  · rw [tplKey_static (by simpa using hc)]
    exact KeyInvariant_static hg

theorem extractFromTemplate_invariant {t fp : String} {sl : Nat} {k : TranslationKey}
    (h : k ∈ extractFromTemplate t fp sl) : KeyInvariant k := by
  rcases mem_extractLinesWith h with ⟨i, line, _, hmem⟩
  rcases mem_lineKeysTemplate hmem with ⟨g, hg, hk⟩ | ⟨g, hg, hk⟩
  · subst hk
    exact KeyInvariant_static (hg.elim scanInterp_ne scanBoundAttr_ne)
  · subst hk
    exact KeyInvariant_tplKey (scanTplT_ne hg)

theorem extractFromScript_invariant {s fp : String} {sl : Nat} {k : TranslationKey}
    (h : k ∈ extractFromScript s fp sl) : KeyInvariant k := by
  unfold extractFromScript at h
  split at h
  · rcases mem_extractLinesWith h with ⟨i, line, _, hmem⟩
    rcases mem_lineKeysScript hmem with ⟨g, hg, hk⟩ | ⟨g, hg, hk⟩
    · subst hk
      exact KeyInvariant_static (scanSimpleT_ne hg)
    · subst hk
      exact KeyInvariant_tplKey (scanTickScript_ne hg)
  · simp at h

theorem extractTranslationKeys_invariant {p : ParsedVueSFC} {k : TranslationKey}
    (h : k ∈ extractTranslationKeys p) : KeyInvariant k := by
  unfold extractTranslationKeys at h
  rcases List.mem_append.mp h with h | h
  · rcases List.mem_append.mp h with h | h
    · cases hp : p.template with
      | none => rw [hp] at h; simp at h
      | some t => rw [hp] at h; exact extractFromTemplate_invariant h
    · cases hp : p.scriptSetup with
      | none => rw [hp] at h; simp at h
      | some s => rw [hp] at h; exact extractFromScript_invariant h
  · cases hp : p.script with
    | none => rw [hp] at h; simp at h
    | some s => rw [hp] at h; exact extractFromScript_invariant h

theorem dynamic_template_shape {t fp : String} {sl : Nat} {k : TranslationKey}
    (hk : k ∈ extractFromTemplate t fp sl) (hdyn : k.isDynamic = true) :
    ∃ i line g, (splitLines t.data)[i]? = some line ∧ g ∈ scanTplT line ∧
      containsSeq dollarBrace g.data = true ∧
      k = ⟨"", fp, sl + i + 1, .template, true, some (wrapTicks g)⟩ := by
  rcases mem_extractLinesWith hk with ⟨i, line, hget, hmem⟩
  rw [Nat.zero_add] at hmem
  rcases mem_lineKeysTemplate hmem with ⟨g, _, hkeq⟩ | ⟨g, hg, hkeq⟩
  · subst hkeq; simp at hdyn
  · by_cases hc : containsSeq dollarBrace g.data = true
    · refine ⟨i, line, g, hget, hg, hc, ?_⟩
      rw [hkeq, tplKey_dyn hc]
      rfl
    · rw [hkeq, tplKey_static (by simpa using hc)] at hdyn
      simp at hdyn

/-! ## Validator lemmas -/

theorem validateKeys_middle (rel : String → String) (lookup : LocaleLookup)
    (ks1 ks2 : List TranslationKey) (k : TranslationKey) :
    validateKeys rel (ks1 ++ k :: ks2) lookup =
      validateKeys rel ks1 lookup ++ validateOne rel lookup k ++
        validateKeys rel ks2 lookup := by
  simp [validateKeys, List.flatMap_append, List.flatMap_cons, List.append_assoc]

theorem validateOne_dynamic {rel : String → String} {lookup : LocaleLookup}
    {k : TranslationKey} (h : k.isDynamic = true) :
    validateOne rel lookup k =
      [{ type := .dynamic_key, severity := .info, file := rel k.file, line := k.line,
         key := k.rawPattern, message := dynamicKeyMessage k.rawPattern }] := by
  simp [validateOne, h]

theorem validateOne_missing {rel : String → String} {lookup : LocaleLookup}
    {k : TranslationKey} (hd : k.isDynamic = false)
    (hm : mapGet lookup k.key = none) :
    validateOne rel lookup k =
      [{ type := .missing_translation, severity := .error, file := rel k.file,
         line := k.line, key := some k.key, message := missingMessage k.key }] := by
  simp [validateOne, hd, hm]

theorem validateOne_found {rel : String → String} {lookup : LocaleLookup}
    {k : TranslationKey} {e : LocaleEntry} (hd : k.isDynamic = false)
    (he : mapGet lookup k.key = some e) :
    validateOne rel lookup k =
      (if e.isEmpty then
        [{ type := .empty_value, severity := .warning, file := rel k.file,
           line := k.line, key := some k.key, message := emptyValueMessage k.key }]
       else []) := by
  simp [validateOne, hd, he]

/-! ## Flattening lemmas -/

mutual
theorem flattenValue_isEmpty_inv : ∀ (v : JValue) (fk file : String) (e : LocaleEntry),
    e ∈ flattenValue v fk file → e.isEmpty = (jsTrimStr e.value == "")
  | .obj fields, fk, file, e, h =>
    flattenFields_isEmpty_inv fields fk file e (by rwa [flattenValue] at h)
  | .str s, _, _, e, h => by
    rw [flattenValue] at h
    rcases List.mem_singleton.mp h with rfl
    rfl
  | .num, _, _, e, h => by simp [flattenValue] at h
  | .boolean _, _, _, e, h => by simp [flattenValue] at h
  | .null, _, _, e, h => by simp [flattenValue] at h
  | .arr _, _, _, e, h => by simp [flattenValue] at h

theorem flattenFields_isEmpty_inv :
    ∀ (fields : List (String × JValue)) (pre file : String) (e : LocaleEntry),
      e ∈ flattenFields fields pre file → e.isEmpty = (jsTrimStr e.value == "")
  | [], _, _, e, h => by rw [flattenFields] at h; simp at h
  | (k, v) :: rest, pre, file, e, h => by
    rw [flattenFields] at h
    rcases List.mem_append.mp h with h | h
    · exact flattenValue_isEmpty_inv v (mkFullKey pre k) file e h
    · exact flattenFields_isEmpty_inv rest pre file e h
end

theorem flattenFields_perm {fields fields' : List (String × JValue)}
    (h : fields.Perm fields') (pre file : String) :
    (flattenFields fields pre file).Perm (flattenFields fields' pre file) := by
  induction h with
  | nil => exact List.Perm.refl _
  | cons x _ ih =>
    obtain ⟨k, v⟩ := x
    simp only [flattenFields]
    exact List.Perm.append_left _ ih
  | swap x y _ =>
    obtain ⟨k1, v1⟩ := x
    obtain ⟨k2, v2⟩ := y
    simp only [flattenFields]
    rw [← List.append_assoc, ← List.append_assoc]
    exact List.Perm.append_right _ List.perm_append_comm
  | trans _ _ ih1 ih2 => exact ih1.trans ih2

theorem flattenFields_cons_str (k s rest pre file) :
    flattenFields ((k, .str s) :: rest) pre file =
      { key := mkFullKey pre k, value := s, file := file,
        isEmpty := jsTrimStr s == "" } :: flattenFields rest pre file := by
  rw [flattenFields, flattenValue]
  rfl

theorem flattenFields_cons_obj (k gs rest pre file) :
    flattenFields ((k, .obj gs) :: rest) pre file =
      flattenFields gs (mkFullKey pre k) file ++ flattenFields rest pre file := by
  rw [flattenFields, flattenValue]

theorem flattenFields_cons_skip (k rest pre file) :
    flattenFields ((k, .num) :: rest) pre file = flattenFields rest pre file ∧
    (∀ b, flattenFields ((k, .boolean b) :: rest) pre file = flattenFields rest pre file) ∧
    flattenFields ((k, .null) :: rest) pre file = flattenFields rest pre file ∧
    (∀ elems, flattenFields ((k, .arr elems) :: rest) pre file =
      flattenFields rest pre file) := by
  refine ⟨?_, fun b => ?_, ?_, fun elems => ?_⟩ <;>
    simp [flattenFields, flattenValue]

theorem append_dot_ne_empty (pre k : String) : ¬ pre ++ "." ++ k = "" := by
  intro h
  have hd := congrArg String.data h
  rw [String.data_append, String.data_append] at hd
  simp at hd

/-! ## Lookup lemmas (the JS `Map` model) -/

theorem mapGet_cons_pos {p : String × LocaleEntry} {m : LocaleLookup} {k : String}
    (h : p.1 == k) : mapGet (p :: m) k = some p.2 := by
  simp [mapGet, List.find?_cons, h]

theorem mapGet_cons_neg {p : String × LocaleEntry} {m : LocaleLookup} {k : String}
    (h : ¬ p.1 == k) : mapGet (p :: m) k = mapGet m k := by
  simp [mapGet, List.find?_cons, h]

theorem mapGet_map_overwrite {k : String} {v : LocaleEntry} :
    ∀ (m : LocaleLookup), m.any (fun p => p.1 == k) = true →
      mapGet (m.map (fun p => if p.1 == k then (k, v) else p)) k = some v := by
  intro m
  induction m with
  | nil => intro h; simp at h
  | cons p ps ih =>
    intro h
    by_cases hp : p.1 == k
    · simp only [List.map_cons, if_pos hp]
      rw [mapGet_cons_pos (by simp)]
    · simp only [List.any_cons, Bool.or_eq_true] at h
      rcases h with h | h
      · exact absurd h hp
      · simp only [List.map_cons, if_neg hp]
        rw [mapGet_cons_neg hp]
        exact ih h

theorem mapGet_append_single_self {k : String} {v : LocaleEntry} :
    ∀ (m : LocaleLookup), m.any (fun p => p.1 == k) = false →
      mapGet (m ++ [(k, v)]) k = some v := by
  intro m
  induction m with
  | nil => intro _; rw [List.nil_append, mapGet_cons_pos (by simp)]
  | cons p ps ih =>
    intro h
    simp only [List.any_cons, Bool.or_eq_false_iff] at h
    rw [List.cons_append, mapGet_cons_neg (by simp [h.1])]
    exact ih h.2

theorem mapGet_mapSet_self (m : LocaleLookup) (k : String) (v : LocaleEntry) :
    mapGet (mapSet m k v) k = some v := by
  unfold mapSet
  split
  · exact mapGet_map_overwrite m (by assumption)
  · rename_i hna
    rw [Bool.not_eq_true] at hna
    exact mapGet_append_single_self m hna

theorem mapGet_map_overwrite_ne {k' k : String} {v : LocaleEntry}
    (hne : ¬ k' = k) :
    ∀ (m : LocaleLookup),
      mapGet (m.map (fun p => if p.1 == k' then (k', v) else p)) k = mapGet m k := by
  intro m
  induction m with
  | nil => rfl
  | cons p ps ih =>
    by_cases hp : p.1 == k'
    · simp only [List.map_cons, if_pos hp]
      have hpk : ¬ p.1 == k := by
        simpa using fun h => hne ((eq_of_beq hp).symm.trans h)
      rw [mapGet_cons_neg (by simpa using hne), mapGet_cons_neg hpk]
      exact ih
    · simp only [List.map_cons, if_neg hp]
      by_cases hpk : p.1 == k
      · rw [mapGet_cons_pos hpk, mapGet_cons_pos hpk]
      · rw [mapGet_cons_neg hpk, mapGet_cons_neg hpk]
        exact ih

theorem mapGet_mapSet_ne (m : LocaleLookup) {k' : String} (v : LocaleEntry)
    {k : String} (hne : ¬ k' = k) : mapGet (mapSet m k' v) k = mapGet m k := by
  unfold mapSet
  split
  · exact mapGet_map_overwrite_ne hne m
  · simp only [mapGet, List.find?_append]
    have hnone : List.find? (fun p => p.1 == k) [(k', v)] = none := by
      have : ¬ ((k', v).1 == k) := by simpa using hne
      simp [List.find?_cons, this]
    rw [hnone, Option.or_none]

theorem lastWith_gen (k : String) :
    ∀ (l : List LocaleEntry) (acc : Option LocaleEntry),
      l.foldl (fun acc e => if e.key == k then some e else acc) acc =
        (lastWith l k).or acc := by
  intro l
  induction l with
  | nil => intro acc; simp [lastWith]
  | cons e l ih =>
    intro acc
    show l.foldl _ (if e.key == k then some e else acc) = _
    rw [ih]
    have hc : lastWith (e :: l) k =
        (lastWith l k).or (if e.key == k then some e else none) := by
      show l.foldl _ (if e.key == k then some e else none) = _
      rw [ih]
    rw [hc]
    cases hl : lastWith l k with
    | some e2 => rfl
    | none =>
      by_cases he : e.key == k
      · simp [he]
      · simp [he]

theorem lastWith_cons (e : LocaleEntry) (l : List LocaleEntry) (k : String) :
    lastWith (e :: l) k = (lastWith l k).or (if e.key == k then some e else none) := by
  show l.foldl _ (if e.key == k then some e else none) = _
  rw [lastWith_gen]

theorem lastWith_append (a b : List LocaleEntry) (k : String) :
    lastWith (a ++ b) k = (lastWith b k).or (lastWith a k) := by
  show (a ++ b).foldl _ none = _
  rw [List.foldl_append, lastWith_gen]
  rfl

theorem lastWith_of_not_mem {l : List LocaleEntry} {k : String}
    (h : ∀ e ∈ l, ¬ e.key = k) : lastWith l k = none := by
  induction l with
  | nil => rfl
  | cons e l ih =>
    rw [lastWith_cons, ih (fun e he => h e (List.mem_cons_of_mem _ he))]
    rw [if_neg (by simpa using h e (List.mem_cons_self _ _))]
    rfl

theorem mapGet_fold (k : String) :
    ∀ (l : List LocaleEntry) (m : LocaleLookup),
      mapGet (l.foldl (fun m e => mapSet m e.key e) m) k =
        (lastWith l k).or (mapGet m k) := by
  intro l
  induction l with
  | nil => intro m; simp [lastWith]
  | cons e l ih =>
    intro m
    show mapGet (l.foldl _ (mapSet m e.key e)) k = _
    rw [ih, lastWith_cons]
    cases hl : lastWith l k with
    | some e2 => rfl
    | none =>
      simp only [Option.none_or]
      by_cases he : e.key == k
      · have hek : e.key = k := eq_of_beq he
        subst hek
        rw [mapGet_mapSet_self, if_pos he]
        rfl
      · rw [mapGet_mapSet_ne m e (by simpa using he), if_neg he]
        rfl

theorem mapGet_createLocaleLookup (entries : List LocaleEntry) (k : String) :
    mapGet (createLocaleLookup entries) k = lastWith entries k := by
  unfold createLocaleLookup
  rw [mapGet_fold]
  cases lastWith entries k <;> rfl

/-! ## Issue counting -/

theorem countIssuesByType_eq (issues : List AuditIssue) :
    countIssuesByType issues =
      ⟨issues.countP (fun i => i.type == .missing_translation),
       issues.countP (fun i => i.type == .empty_value),
       issues.countP (fun i => i.type == .dynamic_key)⟩ := by
  have aux : ∀ (l : List AuditIssue) (acc : IssueCounts),
      l.foldl
        (fun acc i =>
          match i.type with
          | .missing_translation => { acc with missingTranslations := acc.missingTranslations + 1 }
          | .empty_value => { acc with emptyValues := acc.emptyValues + 1 }
          | .dynamic_key => { acc with dynamicKeys := acc.dynamicKeys + 1 }
          | .hardcoded_text => acc)
        acc =
      ⟨acc.missingTranslations + l.countP (fun i => i.type == .missing_translation),
       acc.emptyValues + l.countP (fun i => i.type == .empty_value),
       acc.dynamicKeys + l.countP (fun i => i.type == .dynamic_key)⟩ := by
    intro l
    induction l with
    | nil => intro acc; simp
    | cons i l ih =>
      intro acc
      rw [List.foldl_cons, ih]
      cases hi : i.type <;>
        · simp [List.countP_cons, hi, IssueCounts.mk.injEq]
          try omega
  rw [countIssuesByType, aux]
  simp

/-! ## The sort order of `getUniqueKeys` -/

theorem charListLe_total : ∀ x y : List Char, charListLe x y = true ∨ charListLe y x = true := by
  intro x
  induction x with
  | nil => intro y; left; rfl
  | cons c cs ih =>
    intro y
    cases y with
    | nil => right; rfl
    | cons d ds =>
      by_cases h1 : c < d
      · left; simp [charListLe, h1]
      · by_cases h2 : d < c
        · right; simp [charListLe, h1, h2]
        · rcases ih ds with h | h
          · left; simp [charListLe, h1, h2, h]
          · right; simp [charListLe, h1, h2, h]

theorem charListLe_trans :
    ∀ x y z : List Char, charListLe x y = true → charListLe y z = true →
      charListLe x z = true := by
  intro x
  induction x with
  | nil => intro y z _ _; rfl
  | cons u us ih =>
    intro y z h1 h2
    cases y with
    | nil => simp [charListLe] at h1
    | cons v vs =>
      cases z with
      | nil => simp [charListLe] at h2
      | cons w ws =>
        simp only [charListLe] at h1 h2 ⊢
        rcases lt_trichotomy u v with huv | huv | huv
        · rcases lt_trichotomy v w with hvw | hvw | hvw
          · simp [lt_trans huv hvw]
          · subst hvw; simp [huv]
          · simp [lt_asymm hvw, hvw] at h2
        · subst huv
          rcases lt_trichotomy u w with hvw | hvw | hvw
          · simp [hvw]
          · subst hvw
            simp only [lt_irrefl, if_false] at h1 h2 ⊢
            exact ih _ _ h1 h2
          · simp [lt_asymm hvw, hvw] at h2
        · simp [lt_asymm huv, huv] at h1

instance : IsTotal String strLeR :=
  ⟨fun a b => charListLe_total a.data b.data⟩

instance : IsTrans String strLeR :=
  ⟨fun a b c => charListLe_trans a.data b.data c.data⟩

theorem charListLe_iff_lex (x y : List Char) :
    charListLe x y = true ↔ (List.Lex (· < ·) x y ∨ x = y) := by
  induction x generalizing y with
  | nil =>
    cases y with
    | nil => simp [charListLe]
    | cons d ds =>
      constructor
      · intro _; exact Or.inl List.Lex.nil
      · intro _; rfl
  | cons c cs ih =>
    cases y with
    | nil =>
      constructor
      · intro h; simp [charListLe] at h
      · rintro (h | h)
        · cases h
        · simp at h
    | cons d ds =>
      simp only [charListLe]
      rcases lt_trichotomy c d with hcd | hcd | hcd
      · simp only [if_pos hcd]
        constructor
        · intro _; exact Or.inl (List.Lex.rel hcd)
        · intro _; trivial
      · subst hcd
        simp only [lt_irrefl, if_false]
        rw [ih ds]
        constructor
        · rintro (h | h)
          · exact Or.inl (List.Lex.cons h)
          · exact Or.inr (by rw [h])
        · rintro (h | h)
          · cases h with
            | rel hr => exact absurd hr (lt_irrefl c)
            | cons hl => exact Or.inl hl
          · exact Or.inr (by injection h)
      · rw [if_neg (lt_asymm hcd), if_pos hcd]
        constructor
        · intro h; exact absurd h (by simp)
        · rintro (h | h)
          · cases h with
            | rel hr => exact absurd hr (lt_asymm hcd)
            | cons _ => exact absurd hcd (lt_irrefl _)
          · injection h with h1 _
            exact absurd h1.symm (ne_of_lt hcd)

theorem strLeR_imp_lex {a b : String} (h : strLeR a b) :
    List.Lex (· < ·) a.data b.data ∨ a = b := by
  rcases (charListLe_iff_lex a.data b.data).mp h with hl | hl
  · exact Or.inl hl
  · right
    cases a
    cases b
    exact congrArg String.mk hl

theorem mem_addUniqueKey {acc : List String} {t s : String} :
    s ∈ addUniqueKey acc t ↔ s ∈ acc ∨ s = t := by
  unfold addUniqueKey
  split
  · rename_i h
    constructor
    · exact Or.inl
    · rintro (hs | rfl)
      · exact hs
      · exact h
  · simp

theorem nodup_addUniqueKey {acc : List String} (h : acc.Nodup) (t : String) :
    (addUniqueKey acc t).Nodup := by
  unfold addUniqueKey
  split
  · exact h
  · rename_i ht
    simp [List.nodup_append, h, ht]

theorem mem_collectStaticKeys_gen (s : String) :
    ∀ (keys : List TranslationKey) (acc : List String),
      s ∈ keys.foldl
          (fun acc k => if !k.isDynamic && k.key != "" then addUniqueKey acc k.key else acc)
          acc ↔
        s ∈ acc ∨ ∃ k ∈ keys, k.isDynamic = false ∧ ¬ k.key = "" ∧ k.key = s := by
  intro keys
  induction keys with
  | nil => intro acc; simp
  | cons k ks ih =>
    intro acc
    rw [List.foldl_cons]
    by_cases hc : (!k.isDynamic && k.key != "") = true
    · rw [if_pos hc]
      rw [Bool.and_eq_true, Bool.not_eq_true', bne_iff_ne] at hc
      rw [ih, mem_addUniqueKey]
      constructor
      · rintro ((hs | rfl) | ⟨k', hk', hd, hne, hkey⟩)
        · exact Or.inl hs
        · exact Or.inr ⟨k, List.mem_cons_self _ _, hc.1, hc.2, rfl⟩
        · exact Or.inr ⟨k', List.mem_cons_of_mem _ hk', hd, hne, hkey⟩
      · rintro (hs | ⟨k', hk', hd, hne, hkey⟩)
        · exact Or.inl (Or.inl hs)
        · rcases List.mem_cons.mp hk' with rfl | hk'
          · exact Or.inl (Or.inr hkey.symm)
          · exact Or.inr ⟨k', hk', hd, hne, hkey⟩
    · rw [if_neg hc]
      rw [Bool.and_eq_true, Bool.not_eq_true', bne_iff_ne] at hc
      rw [ih]
      constructor
      · rintro (hs | ⟨k', hk', hd, hne, hkey⟩)
        · exact Or.inl hs
        · exact Or.inr ⟨k', List.mem_cons_of_mem _ hk', hd, hne, hkey⟩
      · rintro (hs | ⟨k', hk', hd, hne, hkey⟩)
        · exact Or.inl hs
        · rcases List.mem_cons.mp hk' with rfl | hk'
          · exact (hc ⟨hd, hne⟩).elim
          · exact Or.inr ⟨k', hk', hd, hne, hkey⟩

theorem mem_collectStaticKeys {keys : List TranslationKey} {s : String} :
    s ∈ collectStaticKeys keys ↔
      ∃ k ∈ keys, k.isDynamic = false ∧ ¬ k.key = "" ∧ k.key = s := by
  rw [collectStaticKeys, mem_collectStaticKeys_gen]
  simp

theorem nodup_collectStaticKeys (keys : List TranslationKey) :
    (collectStaticKeys keys).Nodup := by
  suffices h : ∀ (l : List TranslationKey) (acc : List String), acc.Nodup →
      (l.foldl
        (fun acc k => if !k.isDynamic && k.key != "" then addUniqueKey acc k.key else acc)
        acc).Nodup by
    exact h keys [] List.nodup_nil
  intro l
  induction l with
  | nil => intro acc h; exact h
  | cons k ks ih =>
    intro acc h
    rw [List.foldl_cons]
    split
    · exact ih _ (nodup_addUniqueKey h k.key)
    · exact ih _ h

/-! ## Hardcoded-detection monotonicity lemmas -/

theorem keepCandidate_more_patterns {rules : HardcodedTextRules}
    {p : String → Bool} {text : String}
    (h : keepCandidate { rules with excludePatterns := rules.excludePatterns ++ [p] }
          (DEFAULT_EXCLUDE_PATTERNS ++ (rules.excludePatterns ++ [p])) text = true) :
    keepCandidate rules (DEFAULT_EXCLUDE_PATTERNS ++ rules.excludePatterns) text = true := by
  unfold keepCandidate at h ⊢
  simp only [Bool.and_eq_true, Bool.not_eq_true'] at h ⊢
  refine ⟨⟨⟨⟨h.1.1.1.1, h.1.1.1.2⟩, ?_⟩, h.1.2⟩, h.2⟩
  have hp := h.1.1.2
  unfold matchesExclusionPattern at hp ⊢
  simp only [List.any_append, Bool.or_eq_false_iff] at hp ⊢
  exact ⟨hp.1, (by simpa using hp.2.1)⟩

theorem keepCandidate_smaller_min {rules : HardcodedTextRules} {m' : Nat}
    (hm : m' ≤ rules.minLength) {excludeAll : List (String → Bool)} {text : String}
    (h : keepCandidate rules excludeAll text = true) :
    keepCandidate { rules with minLength := m' } excludeAll text = true := by
  unfold keepCandidate at h ⊢
  simp only [Bool.and_eq_true, Bool.not_eq_true'] at h ⊢
  refine ⟨⟨⟨⟨?_, h.1.1.1.2⟩, h.1.1.2⟩, h.1.2⟩, h.2⟩
  have h1 := h.1.1.1.1
  simp only [decide_eq_false_iff_not, not_lt] at h1 ⊢
  exact le_trans hm h1

/-! ## Claim theorems -/

/-- C2: for every static (non-dynamic) call site whose key is absent from
the catalog lookup table, `validateKeys` emits exactly one issue of kind
`missing_translation` with severity `error` that references that call
site's key and line number. -/
theorem missing_key_single_error_issue (rel : String → String) (lookup : LocaleLookup)
    (ks1 ks2 : List TranslationKey) (k : TranslationKey) (hd : k.isDynamic = false)
    (hm : mapGet lookup k.key = none) :
    validateKeys rel (ks1 ++ k :: ks2) lookup =
      validateKeys rel ks1 lookup ++
        [{ type := .missing_translation, severity := .error, file := rel k.file,
           line := k.line, key := some k.key, message := missingMessage k.key }] ++
        validateKeys rel ks2 lookup := by
  rw [validateKeys_middle, validateOne_missing hd hm]

/-- Witness for C2 at a concrete missing key in an empty catalog. -/
theorem missing_key_single_error_issue_witness :
    missDemoKey.isDynamic = false ∧
    mapGet [] missDemoKey.key = none ∧
    validateKeys (fun s => s) ([] ++ missDemoKey :: []) [] =
      validateKeys (fun s => s) [] [] ++
        [{ type := .missing_translation, severity := .error,
           file := (fun s => s) missDemoKey.file, line := missDemoKey.line,
           key := some missDemoKey.key, message := missingMessage missDemoKey.key }] ++
        validateKeys (fun s => s) [] [] :=
  ⟨by decide, by decide,
   missing_key_single_error_issue (fun s => s) [] [] [] missDemoKey (by decide) (by decide)⟩

/-- C3: for every static call site whose key is present in the catalog
lookup table with an entry produced by the flattening, `validateKeys`
emits exactly one warning-severity `empty_value` issue when the entry's
value is empty after trimming, and no issue at all otherwise. -/
theorem present_key_empty_value_issue (rel : String → String) (lookup : LocaleLookup)
    (ks1 ks2 : List TranslationKey) (k : TranslationKey) (e : LocaleEntry)
    (fields : List (String × JValue)) (pre file : String)
    (hd : k.isDynamic = false) (hm : mapGet lookup k.key = some e)
    (hflat : e ∈ flattenFields fields pre file) :
    validateKeys rel (ks1 ++ k :: ks2) lookup =
      validateKeys rel ks1 lookup ++
        (if jsTrimStr e.value == "" then
          [{ type := .empty_value, severity := .warning, file := rel k.file,
             line := k.line, key := some k.key, message := emptyValueMessage k.key }]
         else []) ++
        validateKeys rel ks2 lookup := by
  rw [validateKeys_middle, validateOne_found hd hm,
    flattenFields_isEmpty_inv fields pre file e hflat]

/-- Witness for C3 at a whitespace-only catalog value. -/
theorem present_key_empty_value_issue_witness :
    emptyValKey.isDynamic = false ∧
    mapGet emptyValLookup emptyValKey.key = some emptyValEntry ∧
    emptyValEntry ∈ flattenFields emptyValFields "ns" "f" ∧
    validateKeys (fun s => s) ([] ++ emptyValKey :: []) emptyValLookup =
      validateKeys (fun s => s) [] emptyValLookup ++
        (if jsTrimStr emptyValEntry.value == "" then
          [{ type := .empty_value, severity := .warning,
             file := (fun s => s) emptyValKey.file, line := emptyValKey.line,
             key := some emptyValKey.key, message := emptyValueMessage emptyValKey.key }]
         else []) ++
        validateKeys (fun s => s) [] emptyValLookup :=
  ⟨by decide, by decide, by decide,
   present_key_empty_value_issue (fun s => s) emptyValLookup [] [] emptyValKey
     emptyValEntry emptyValFields "ns" "f" (by decide) (by decide) (by decide)⟩

/-- C6: the catalog lookup is right-biased on duplicate keys; given an
entry list in which `e1` from an earlier file precedes `e2` with the same
flattened key, and no later entry carries that key, the lookup maps the
key to `e2`, with no merging and no error. -/
theorem lookup_last_wins (l1 l2 l3 : List LocaleEntry) (e1 e2 : LocaleEntry)
    (hk : e1.key = e2.key) (hlast : ∀ e ∈ l3, ¬ e.key = e2.key) :
    mapGet (createLocaleLookup (l1 ++ [e1] ++ l2 ++ [e2] ++ l3)) e2.key = some e2 := by
  rw [mapGet_createLocaleLookup]
  rw [lastWith_append _ l3, lastWith_of_not_mem hlast]
  simp only [Option.none_or]
  rw [lastWith_append _ [e2]]
  have he2 : lastWith [e2] e2.key = some e2 := by
    simp [lastWith]
  rw [he2]
  rfl

/-- Witness for C6 on a three-entry catalog with one duplicate key. -/
theorem lookup_last_wins_witness :
    dupE1.key = dupE2.key ∧
    (∀ e ∈ [dupE3], ¬ e.key = dupE2.key) ∧
    mapGet (createLocaleLookup ([] ++ [dupE1] ++ [] ++ [dupE2] ++ [dupE3])) dupE2.key =
      some dupE2 :=
  ⟨by decide, by decide,
   lookup_last_wins [] [] [dupE3] dupE1 dupE2 (by decide) (by decide)⟩

/-- C8: a script section with no evidence of the translation function (no
match of the `useI18n` call pattern and no match of the destructured-`t`
pattern anywhere in its text) yields zero call sites, regardless of how
many `t` calls appear in it. -/
theorem script_guard_blocks_extraction (script filePath : String) (startLine : Nat)
    (h1 : existsMatchAt matchUseI18nAt script.data = false)
    (h2 : existsMatchAt matchDestructTAt script.data = false) :
    extractFromScript script filePath startLine = [] := by
  unfold extractFromScript
  rw [if_neg]
  rw [usesI18n, h1, h2]
  simp

/-- Witness for C8: a script containing a `t` call of the key `a.b` but no
`useI18n` evidence extracts nothing. -/
theorem script_guard_blocks_extraction_witness :
    existsMatchAt matchUseI18nAt noI18nScript.data = false ∧
    existsMatchAt matchDestructTAt noI18nScript.data = false ∧
    extractFromScript noI18nScript "F.vue" 1 = [] :=
  ⟨by decide, by decide,
   script_guard_blocks_extraction noI18nScript "F.vue" 1 (by decide) (by decide)⟩

/-- C1: every dynamic call site extracted from a template (a translation
call whose matched template literal contains an interpolation marker)
makes `validateKeys` emit exactly one `dynamic_key` issue of severity
`info`, for every catalog lookup table; the issue carries the raw
pattern, which reproduces the matched backtick-delimited literal with its
backtick delimiters, and the call site's key field is the empty string. -/
theorem dynamic_key_single_info_issue (t f : String) (s : Nat) (lookup : LocaleLookup)
    (rel : String → String) (ks1 ks2 : List TranslationKey) (k : TranslationKey)
    (hk : k ∈ extractFromTemplate t f s) (hdyn : k.isDynamic = true) :
    validateKeys rel (ks1 ++ k :: ks2) lookup =
      validateKeys rel ks1 lookup ++
        [{ type := .dynamic_key, severity := .info, file := rel k.file, line := k.line,
           key := k.rawPattern, message := dynamicKeyMessage k.rawPattern }] ++
        validateKeys rel ks2 lookup ∧
    k.key = "" ∧
    (∃ i line g, (splitLines t.data)[i]? = some line ∧ g ∈ scanTplT line ∧
      containsSeq dollarBrace g.data = true ∧ k.rawPattern = some (wrapTicks g) ∧
      k.line = s + i + 1) := by
  rcases dynamic_template_shape hk hdyn with ⟨i, line, g, hget, hg, hc, hkeq⟩
  refine ⟨?_, ?_, i, line, g, hget, hg, hc, ?_, ?_⟩
  · rw [validateKeys_middle, validateOne_dynamic hdyn]
  · rw [hkeq]
  · rw [hkeq]
  · rw [hkeq]

/-- Witness for C1 on the dynamic call of the literal `s.` interpolating
`v`, against the empty catalog. -/
theorem dynamic_key_single_info_issue_witness :
    dynDemoKey ∈ extractFromTemplate dynDemoTemplate "F.vue" 1 ∧
    dynDemoKey.isDynamic = true ∧
    (validateKeys (fun s => s) ([] ++ dynDemoKey :: []) [] =
      validateKeys (fun s => s) [] [] ++
        [{ type := .dynamic_key, severity := .info,
           file := (fun s => s) dynDemoKey.file, line := dynDemoKey.line,
           key := dynDemoKey.rawPattern,
           message := dynamicKeyMessage dynDemoKey.rawPattern }] ++
        validateKeys (fun s => s) [] [] ∧
     dynDemoKey.key = "" ∧
     (∃ i line g, (splitLines dynDemoTemplate.data)[i]? = some line ∧
       g ∈ scanTplT line ∧ containsSeq dollarBrace g.data = true ∧
       dynDemoKey.rawPattern = some (wrapTicks g) ∧ dynDemoKey.line = 1 + i + 1)) :=
  ⟨by decide, by decide,
   dynamic_key_single_info_issue dynDemoTemplate "F.vue" 1 [] (fun s => s) [] []
     dynDemoKey (by decide) (by decide)⟩

/-- C9: every record produced by `extractTranslationKeys` satisfies the
invariant: a dynamic record has the empty key and a raw pattern that is
present, begins and ends with a backtick, and contains the interpolation
marker; a static record has a non-empty key and no raw pattern. -/
theorem extraction_record_invariant (p : ParsedVueSFC) (k : TranslationKey)
    (h : k ∈ extractTranslationKeys p) :
    (k.isDynamic = true →
      k.key = "" ∧ ∃ raw, k.rawPattern = some raw ∧ raw.data.head? = some '`' ∧
        raw.data.getLast? = some '`' ∧ containsSeq dollarBrace raw.data = true) ∧
    (k.isDynamic = false → ¬ k.key = "" ∧ k.rawPattern = none) :=
  extractTranslationKeys_invariant h

/-- Witness for C9 at the dynamic record of `dynDemoParsed`. -/
theorem extraction_record_invariant_witness :
    dynDemoKey ∈ extractTranslationKeys dynDemoParsed ∧
    ((dynDemoKey.isDynamic = true →
      dynDemoKey.key = "" ∧ ∃ raw, dynDemoKey.rawPattern = some raw ∧
        raw.data.head? = some '`' ∧ raw.data.getLast? = some '`' ∧
        containsSeq dollarBrace raw.data = true) ∧
     (dynDemoKey.isDynamic = false →
      ¬ dynDemoKey.key = "" ∧ dynDemoKey.rawPattern = none)) :=
  ⟨by decide, extraction_record_invariant dynDemoParsed dynDemoKey (by decide)⟩

/-- C10: `getUniqueKeys` returns exactly the set of distinct key strings
of the non-dynamic call sites with non-empty keys, as a duplicate-free
list in ascending lexicographic order; dynamic call sites and empty keys
contribute nothing. -/
theorem unique_keys_sorted_distinct (keys : List TranslationKey) :
    (∀ s, s ∈ getUniqueKeys keys ↔
      ∃ k ∈ keys, k.isDynamic = false ∧ ¬ k.key = "" ∧ k.key = s) ∧
    (getUniqueKeys keys).Nodup ∧
    (getUniqueKeys keys).Sorted (fun a b => List.Lex (· < ·) a.data b.data ∨ a = b) := by
  have hperm : (getUniqueKeys keys).Perm (collectStaticKeys keys) :=
    List.perm_insertionSort strLeR _
  refine ⟨?_, ?_, ?_⟩
  · intro s
    rw [hperm.mem_iff, mem_collectStaticKeys]
  · exact hperm.nodup_iff.mpr (nodup_collectStaticKeys keys)
  · have hs : (getUniqueKeys keys).Sorted strLeR := List.sorted_insertionSort strLeR _
    exact List.Pairwise.imp (fun h => strLeR_imp_lex h) hs

/-- C7: hardcoded-text detection is monotone in its rule set; appending
one exclusion pattern never increases the number of candidates, and
replacing `minLength` by a smaller value never decreases it. -/
theorem hardcoded_filters_monotone (parsed : ParsedVueSFC) (rel : String → String)
    (rules : HardcodedTextRules) (p : String → Bool) (m' : Nat) :
    (detectHardcodedStrings parsed
        { rules with excludePatterns := rules.excludePatterns ++ [p] } rel).length ≤
      (detectHardcodedStrings parsed rules rel).length ∧
    (m' ≤ rules.minLength →
      (detectHardcodedStrings parsed rules rel).length ≤
        (detectHardcodedStrings parsed { rules with minLength := m' } rel).length) := by
  constructor
  · unfold detectHardcodedStrings
    cases hp : parsed.template with
    | none => exact Nat.le_refl _
    | some tpl =>
      apply length_filterMap_le_of_imp
      intro node h
      by_cases hkeep : keepCandidate { rules with excludePatterns := rules.excludePatterns ++ [p] }
          (DEFAULT_EXCLUDE_PATTERNS ++ (rules.excludePatterns ++ [p])) node.text = true
      · rw [if_pos (keepCandidate_more_patterns hkeep)]
        rfl
      · rw [if_neg hkeep] at h
        simp at h
  · intro hm
    unfold detectHardcodedStrings
    cases hp : parsed.template with
    | none => exact Nat.le_refl _
    | some tpl =>
      apply length_filterMap_le_of_imp
      intro node h
      by_cases hkeep : keepCandidate rules
          (DEFAULT_EXCLUDE_PATTERNS ++ rules.excludePatterns) node.text = true
      · rw [if_pos (keepCandidate_smaller_min hm hkeep)]
        rfl
      · rw [if_neg hkeep] at h
        simp at h

/-- Witness for C7 on a one-node template with the default rules, an
extra exclusion pattern, and the smaller minimum length 2. -/
theorem hardcoded_filters_monotone_witness :
    (detectHardcodedStrings hcDemoParsed
        { demoRules with excludePatterns := demoRules.excludePatterns ++ [hcDemoPattern] }
        (fun s => s)).length ≤
      (detectHardcodedStrings hcDemoParsed demoRules (fun s => s)).length ∧
    (2 ≤ demoRules.minLength ∧
      (detectHardcodedStrings hcDemoParsed demoRules (fun s => s)).length ≤
        (detectHardcodedStrings hcDemoParsed { demoRules with minLength := 2 }
          (fun s => s)).length) :=
  ⟨(hardcoded_filters_monotone hcDemoParsed (fun s => s) demoRules hcDemoPattern 2).1,
   by decide,
   (hardcoded_filters_monotone hcDemoParsed (fun s => s) demoRules hcDemoPattern 2).2
     (by decide)⟩

theorem str_data_ext {a b : String} (h : a.data = b.data) : a = b := by
  cases a
  cases b
  exact congrArg String.mk h

theorem dot_chain (ns a b : String) :
    (ns ++ "." ++ a) ++ "." ++ b = ns ++ ("." ++ (a ++ ("." ++ b))) :=
  str_data_ext (by simp [String.data_append, List.append_assoc])

theorem flattenFields_nil (pre file : String) : flattenFields [] pre file = [] := by
  rw [flattenFields]

theorem mkFullKey_sub (ns a b : String) (hns : ¬ ns = "") (lit : String)
    (hlit : "." ++ (a ++ ("." ++ b)) = lit) :
    mkFullKey (mkFullKey ns a) b = ns ++ lit := by
  have hinner : mkFullKey ns a = ns ++ "." ++ a := by
    rw [mkFullKey, if_neg (by simpa using hns)]
  rw [hinner, mkFullKey, if_neg (by simpa using append_dot_ne_empty ns a), dot_chain, hlit]

/-- C5: flattening a nested object under a namespace yields exactly one
entry per string leaf, keyed by the namespace joined to the path by dots
(the spec's two-leaf example is computed for both sibling orders), the
output is permutation-invariant under sibling reordering, and non-string
non-object leaves produce no entry. -/
theorem flatten_dot_joined_leaves (ns f x y : String) (hns : ¬ ns = "")
    {fields fields' : List (String × JValue)} (hperm : fields.Perm fields')
    (pre file : String) :
    (flattenFields [("a", .obj [("b", .str x), ("c", .str y)])] ns f =
       [{ key := ns ++ ".a.b", value := x, file := f, isEmpty := jsTrimStr x == "" },
        { key := ns ++ ".a.c", value := y, file := f, isEmpty := jsTrimStr y == "" }] ∧
     flattenFields [("a", .obj [("c", .str y), ("b", .str x)])] ns f =
       [{ key := ns ++ ".a.c", value := y, file := f, isEmpty := jsTrimStr y == "" },
        { key := ns ++ ".a.b", value := x, file := f, isEmpty := jsTrimStr x == "" }]) ∧
    (flattenFields fields pre file).Perm (flattenFields fields' pre file) ∧
    (∀ k s rest pre2 file2,
      flattenFields ((k, .str s) :: rest) pre2 file2 =
        { key := mkFullKey pre2 k, value := s, file := file2,
          isEmpty := jsTrimStr s == "" } :: flattenFields rest pre2 file2) ∧
    (∀ k gs rest pre2 file2,
      flattenFields ((k, .obj gs) :: rest) pre2 file2 =
        flattenFields gs (mkFullKey pre2 k) file2 ++ flattenFields rest pre2 file2) ∧
    (∀ k rest pre2 file2,
      flattenFields ((k, .num) :: rest) pre2 file2 = flattenFields rest pre2 file2 ∧
      (∀ b, flattenFields ((k, .boolean b) :: rest) pre2 file2 =
        flattenFields rest pre2 file2) ∧
      flattenFields ((k, .null) :: rest) pre2 file2 = flattenFields rest pre2 file2 ∧
      (∀ elems, flattenFields ((k, .arr elems) :: rest) pre2 file2 =
        flattenFields rest pre2 file2)) := by
  refine ⟨⟨?_, ?_⟩, flattenFields_perm hperm pre file,
    fun k s rest pre2 file2 => flattenFields_cons_str k s rest pre2 file2,
    fun k gs rest pre2 file2 => flattenFields_cons_obj k gs rest pre2 file2,
    fun k rest pre2 file2 => flattenFields_cons_skip k rest pre2 file2⟩
  · rw [flattenFields_cons_obj, flattenFields_cons_str, flattenFields_cons_str,
      flattenFields_nil, flattenFields_nil, List.append_nil]
    rw [mkFullKey_sub ns "a" "b" hns ".a.b" (by decide),
      mkFullKey_sub ns "a" "c" hns ".a.c" (by decide)]
  · rw [flattenFields_cons_obj, flattenFields_cons_str, flattenFields_cons_str,
      flattenFields_nil, flattenFields_nil, List.append_nil]
    rw [mkFullKey_sub ns "a" "b" hns ".a.b" (by decide),
      mkFullKey_sub ns "a" "c" hns ".a.c" (by decide)]

/-- Witness for C5 at the namespace `common`, one non-blank and one blank
leaf, and the two sibling orders exchanged by a swap. -/
theorem flatten_dot_joined_leaves_witness :
    ¬ ("common" : String) = "" ∧
    ([(("b" : String), JValue.str "Save"), ("c", JValue.str " ")]).Perm
      [("c", JValue.str " "), ("b", JValue.str "Save")] ∧
    ((flattenFields [("a", .obj [("b", .str "Save"), ("c", .str " ")])] "common" "f.ts" =
       [{ key := "common" ++ ".a.b", value := "Save", file := "f.ts",
          isEmpty := jsTrimStr "Save" == "" },
        { key := "common" ++ ".a.c", value := " ", file := "f.ts",
          isEmpty := jsTrimStr " " == "" }] ∧
      flattenFields [("a", .obj [("c", .str " "), ("b", .str "Save")])] "common" "f.ts" =
       [{ key := "common" ++ ".a.c", value := " ", file := "f.ts",
          isEmpty := jsTrimStr " " == "" },
        { key := "common" ++ ".a.b", value := "Save", file := "f.ts",
          isEmpty := jsTrimStr "Save" == "" }]) ∧
     (flattenFields [("b", .str "Save"), ("c", .str " ")] "p" "q").Perm
       (flattenFields [("c", .str " "), ("b", .str "Save")] "p" "q") ∧
     (∀ k s rest pre2 file2,
       flattenFields ((k, .str s) :: rest) pre2 file2 =
         { key := mkFullKey pre2 k, value := s, file := file2,
           isEmpty := jsTrimStr s == "" } :: flattenFields rest pre2 file2) ∧
     (∀ k gs rest pre2 file2,
       flattenFields ((k, .obj gs) :: rest) pre2 file2 =
         flattenFields gs (mkFullKey pre2 k) file2 ++ flattenFields rest pre2 file2) ∧
     (∀ k rest pre2 file2,
       flattenFields ((k, .num) :: rest) pre2 file2 = flattenFields rest pre2 file2 ∧
       (∀ b, flattenFields ((k, .boolean b) :: rest) pre2 file2 =
         flattenFields rest pre2 file2) ∧
       flattenFields ((k, .null) :: rest) pre2 file2 = flattenFields rest pre2 file2 ∧
       (∀ elems, flattenFields ((k, .arr elems) :: rest) pre2 file2 =
         flattenFields rest pre2 file2))) :=
  ⟨by decide, List.Perm.swap ("c", JValue.str " ") ("b", JValue.str "Save") [],
   flatten_dot_joined_leaves "common" "f.ts" "Save" " " (by decide)
     (List.Perm.swap ("c", JValue.str " ") ("b", JValue.str "Save") []) "p" "q"⟩

/-- C4 counterexample: with one template file whose two lines both call
the same missing key, the catalog empty, the code's coverage is −100 (it
subtracts the number of missing-translation issues, here 2, from the one
unique key), while the claim's formula with M = number of unique missing
keys gives 0. -/
theorem coverage_unique_missing_counterexample :
    ¬ ((runAuditSummary (fun s => s) [dupParsed] [] demoRules).coveragePercentage =
        claimCoverageFormula
          (getUniqueKeys ([dupParsed].flatMap extractTranslationKeys)).length
          (claimUniqueMissing ([dupParsed].flatMap extractTranslationKeys) [])) := by
  have h1 : (getUniqueKeys ([dupParsed].flatMap extractTranslationKeys)).length = 1 := by
    decide
  have h2 : (countIssuesByType
      ([dupParsed].flatMap (fileIssues (fun s => s) [] demoRules))).missingTranslations
        = 2 := by decide
  have h3 : claimUniqueMissing ([dupParsed].flatMap extractTranslationKeys) [] = 1 := by
    decide
  have hL : (runAuditSummary (fun s => s) [dupParsed] [] demoRules).coveragePercentage =
      coverageOf 1 2 := by
    show coverageOf
        (getUniqueKeys ([dupParsed].flatMap extractTranslationKeys)).length
        (countIssuesByType
          ([dupParsed].flatMap (fileIssues (fun s => s) [] demoRules))).missingTranslations
      = coverageOf 1 2
    rw [h1, h2]
  intro h
  rw [hL, h1, h3] at h
  have hv : coverageOf 1 2 = -100 := by norm_num [coverageOf, round_eq]
  have hv2 : claimCoverageFormula 1 1 = 0 := by norm_num [claimCoverageFormula, round_eq]
  rw [hv, hv2] at h
  norm_num at h

/-- C4 (amended): the report's coverage percentage equals
round(((U−M)/U)×1000)/10 where U is the number of unique static keys
extracted across all files and M is the total number of
`missing_translation` issues (one per static call site whose key is
missing, so repeated call sites of one missing key count repeatedly),
and the coverage equals 100 when U = 0. -/
theorem coverage_formula_issue_count (rel : String → String) (files : List ParsedVueSFC)
    (lookup : LocaleLookup) (rules : HardcodedTextRules) :
    (runAuditSummary rel files lookup rules).coveragePercentage =
      claimCoverageFormula
        (getUniqueKeys (files.flatMap extractTranslationKeys)).length
        ((files.flatMap (fileIssues rel lookup rules)).countP
          (fun i => i.type == .missing_translation)) ∧
    ((getUniqueKeys (files.flatMap extractTranslationKeys)).length = 0 →
      (runAuditSummary rel files lookup rules).coveragePercentage = 100) := by
  have hM : (countIssuesByType (files.flatMap (fileIssues rel lookup rules))).missingTranslations
      = (files.flatMap (fileIssues rel lookup rules)).countP
          (fun i => i.type == .missing_translation) := by
    rw [countIssuesByType_eq]
  constructor
  · show coverageOf (getUniqueKeys (files.flatMap extractTranslationKeys)).length
        (countIssuesByType (files.flatMap (fileIssues rel lookup rules))).missingTranslations
      = _
    rw [hM]
    rfl
  · intro h0
    show coverageOf (getUniqueKeys (files.flatMap extractTranslationKeys)).length
        (countIssuesByType (files.flatMap (fileIssues rel lookup rules))).missingTranslations
      = 100
    rw [h0]
    simp [coverageOf]

/-- Witness for the amended C4 with no files: U = 0 and the coverage is
100. -/
theorem coverage_formula_issue_count_witness :
    ((runAuditSummary (fun s => s) [] [] demoRules).coveragePercentage =
      claimCoverageFormula
        (getUniqueKeys (([] : List ParsedVueSFC).flatMap extractTranslationKeys)).length
        ((([] : List ParsedVueSFC).flatMap (fileIssues (fun s => s) [] demoRules)).countP
          (fun i => i.type == .missing_translation))) ∧
    (getUniqueKeys (([] : List ParsedVueSFC).flatMap extractTranslationKeys)).length = 0 ∧
    (runAuditSummary (fun s => s) [] [] demoRules).coveragePercentage = 100 :=
  ⟨(coverage_formula_issue_count (fun s => s) [] [] demoRules).1, by decide,
   (coverage_formula_issue_count (fun s => s) [] [] demoRules).2 (by decide)⟩

end I18nAudit
